import Mathlib

/-!
# DMASpy — verification of the consensus planner, manager clock protocol and
messaging substrate

Shallow embedding of the parts of the DMASpy repository needed to settle the
spec claims:

* `src/examples/planning/planners/accbba.py` — the `SubtaskBid` data model and
  the `ACCBBAPlannerModule` consensus/planning phases;
* `src/applications/planning/manager.py` — `wait_for_tic_requests`;
* `src/dmas/network.py` — send/receive capability checks;
* `src/applications/chess3d/nodes/planning/greedy.py` — `GreedyBid.update`.

Python floats are modelled as rationals (`ℚ`), Python lists as `List`,
dictionaries as association lists.  Classes that the repository imports but
whose files are not in the source tree (the `TaskBid`/`Bid` base class, the
`MeasurementTask` request class, the agent-state class) are modelled from the
spec and marked as such in their doc comments.
-/

namespace DMAS

/-- Modelled from the spec: the distinguished "no winner" marker
`TaskBid.NONE` (§3: `winner ∈ {NONE} ∪ bidder_names`); the base class holding
it is not under `src/`.  Only its distinctness from real agent names matters. -/
def NONE : String := "None"

/-- Modelled from the spec: the measurement-request record (§3
"Measurement request"); the `MeasurementTask` class itself is imported by
`accbba.py` from a module that is not under `src/`.  Fields are the ones the
planner code reads. -/
structure MeasurementTask where
  id : Nat
  pos : List ℚ
  t_start : ℚ
  t_end : ℚ
  duration : ℚ
  measurement_groups : List (String × List String)
  measurements : List String
  dependency_matrix : List (List Int)
  time_dependency_matrix : List (List ℚ)
deriving DecidableEq, Repr, Inhabited

/-- A `(request, subtask_index)` pair, the element type of `bundle` and
`path`. -/
abbrev Pair := MeasurementTask × Nat

/-- `SubtaskBid` (accbba.py): bid placed on one subtask of a measurement
request.  `bid_solo_max`/`bid_any_max` mirror the fields stored by
`SubtaskBid.__init__`. -/
structure SubtaskBid where
  task : MeasurementTask
  subtask_index : Nat
  main_measurement : String
  dependencies : List Int
  time_constraints : List ℚ
  bidder : String
  own_bid : ℚ := 0
  winning_bid : ℚ := 0
  winner : String := NONE
  t_img : ℚ := -1
  t_update : ℚ := -1
  dt_converge : ℚ := 0
  t_violation : ℚ := -1
  dt_violation : ℚ := 0
  bid_solo : Int := 1
  bid_any : Int := 1
  bid_solo_max : Int := 1
  bid_any_max : Int := 1
  performed : Bool := false
deriving DecidableEq, Repr, Inhabited

namespace SubtaskBid

/-- `SubtaskBid.__init__`: `N_req` counts the strictly positive entries of the
dependency row (stored at construction; the row is never mutated, so we derive
it). -/
def N_req (b : SubtaskBid) : Nat := (b.dependencies.filter (fun d => d > 0)).length

/-- `SubtaskBid.is_optimistic`. -/
def is_optimistic (b : SubtaskBid) : Bool := b.dependencies.any (fun d => d > 0)

/-- `SubtaskBid.has_winner`. -/
def has_winner (b : SubtaskBid) : Bool := b.winner ≠ NONE

/-- `SubtaskBid.count_coal_conts_satisied`: counts indices `i` with
`dependencies[i] == 1` and `others[i].winner != NONE`.  The source first
asserts `len(others) == len(dependencies)` (raising `ValueError` otherwise);
we model the count on the common prefix and carry the length equation as a
hypothesis in the theorems that read exact values. -/
def count_coal_conts_satisied (b : SubtaskBid) (others : List SubtaskBid) : Nat :=
  ((b.dependencies.zip others).filter
    (fun p => p.1 == 1 && p.2.winner != NONE)).length

/-- `SubtaskBid.set_bid`. -/
def set_bid (b : SubtaskBid) (new_bid t_img t_update : ℚ) : SubtaskBid :=
  { b with own_bid := new_bid, winning_bid := new_bid, winner := b.bidder,
           t_img := t_img, t_violation := -1, t_update := t_update }

/-- `SubtaskBid.reset_bid_counters`. -/
def reset_bid_counters (b : SubtaskBid) : SubtaskBid :=
  { b with bid_solo := b.bid_solo_max, bid_any := b.bid_any_max }

/-- `SubtaskBid.__set_violation_timer`: start the violation timer if it is not
already running. -/
def set_violation_timer (b : SubtaskBid) (t : ℚ) : SubtaskBid :=
  if b.t_violation < 0 then { b with t_violation := t } else b

/-- `SubtaskBid.__reset_violation_timer`: the timer is cleared only when this
agent is the current winner (`self.winner == self.bidder`). -/
def reset_violation_timer (b : SubtaskBid) : SubtaskBid :=
  if b.winner == b.bidder then { b with t_violation := -1 } else b

/-- `SubtaskBid.__has_timed_out`. -/
def has_timed_out (b : SubtaskBid) (t : ℚ) : Bool :=
  if b.t_violation < 0 then false else t ≥ b.dt_violation + b.t_violation

end SubtaskBid

/-- Modelled from the spec: the tie-breaker of the missing `Bid`/`TaskBid`
base class — "tie-break by bidder name, lexicographic" (§4.6.1).  `true` means
the tie resolves in the second (incoming) bidder's favor. -/
def tie_breaker_names (mineBidder otherBidder : String) : Bool :=
  otherBidder < mineBidder

/-- The tie-breaker applied to two subtask bids. -/
def tie_breaker (mine other : SubtaskBid) : Bool :=
  tie_breaker_names mine.bidder other.bidder

namespace TaskBid

/-- Modelled from the spec: `TaskBid.update` (§4.6.1), whose defining file is
not under `src/`.  Adopt `other`'s `winner`, `winning_bid`, `t_img` when
`other.winning_bid > mine.winning_bid`, or they are equal and the tie-breaker
resolves in `other`'s favor; always set `t_update := t`.  Returns the updated
bid, the broadcast choice (`other` if this node was the prior winner and was
displaced, else the updated own bid if `other`'s value was adopted, else
none) and the changed flag (some stored field differs). -/
def update_base (mine other : SubtaskBid) (t : ℚ) :
    SubtaskBid × Option SubtaskBid × Bool :=
  let adopt : Bool :=
    other.winning_bid > mine.winning_bid
      || (other.winning_bid == mine.winning_bid && tie_breaker mine other)
  let mine' : SubtaskBid :=
    if adopt then
      { mine with winner := other.winner, winning_bid := other.winning_bid,
                  t_img := other.t_img, t_update := t }
    else { mine with t_update := t }
  let changed : Bool :=
    mine'.winner != mine.winner || mine'.winning_bid != mine.winning_bid
      || mine'.t_img != mine.t_img
  let broadcast : Option SubtaskBid :=
    if adopt && mine.winner == mine.bidder && mine'.winner != mine.bidder then
      some other
    else if adopt then some mine'
    else none
  (mine', broadcast, changed)

/-- Modelled from the spec: `TaskBid.reset` (§4.6.7 / §8), whose defining file
is not under `src/`: `winner ← NONE`, `winning_bid ← 0`, `t_img ← −1`, and the
update time is recorded. -/
def reset_base (b : SubtaskBid) (t_update : ℚ) : SubtaskBid :=
  { b with winner := NONE, winning_bid := 0, t_img := -1, t_update := t_update }

end TaskBid

namespace SubtaskBid

/-- `SubtaskBid.update` (accbba.py): runs the base update, then re-labels the
broadcast choice — if the base chose a bid authored by `other`'s bidder return
`other` itself, otherwise return the (updated) own bid. -/
def update (mine other : SubtaskBid) (t : ℚ) :
    SubtaskBid × Option SubtaskBid × Bool :=
  let (mine', broadcast_out, changed) := TaskBid.update_base mine other t
  match broadcast_out with
  | some b =>
      if other.bidder == b.bidder then (mine', some other, changed)
      else (mine', some mine', changed)
  | none => (mine', none, changed)

/-- `SubtaskBid.reset` (accbba.py): first `__reset_violation_timer`, then the
base-class reset. -/
def reset (b : SubtaskBid) (t_update : ℚ) : SubtaskBid :=
  TaskBid.reset_base (b.reset_violation_timer) t_update

/-- `SubtaskBid.subtask_bids_from_task` (accbba.py): one fresh bid per
measurement group, carrying the matching dependency and time-dependency rows. -/
def subtask_bids_from_task (task : MeasurementTask) (bidder : String) :
    List SubtaskBid :=
  (List.range task.measurement_groups.length).map (fun subtask_index =>
    { task := task
      subtask_index := subtask_index
      main_measurement := (task.measurement_groups.getD subtask_index ("", [])).1
      dependencies := task.dependency_matrix.getD subtask_index []
      time_constraints := task.time_dependency_matrix.getD subtask_index []
      bidder := bidder })

/-- `SubtaskBid.__mutex_sat`, first half: the local agent's coalition bid —
own winning bid plus the winning bids of the other subtasks `j` with
`dependencies[j] == 1` — and the coalition's member indices. -/
def agent_coalition_bid (b : SubtaskBid) (others : List SubtaskBid) : ℚ × List Nat :=
  others.foldl
    (fun (acc : ℚ × List Nat) bid_i =>
      let bid_i_index := others.indexOf bid_i
      if bid_i_index == b.subtask_index then acc
      else if b.dependencies.getD bid_i_index 0 == 1 then
        (acc.1 + bid_i.winning_bid, acc.2 ++ [bid_i_index])
      else acc)
    (b.winning_bid, [b.subtask_index])

/-- `SubtaskBid.__mutex_sat`, inner loop over one candidate coalition: sum the
members' winning bids, skipping the own subtask and aborting (keeping the
partial sum) at the first member that is not mutually exclusive with every
member of the agent's coalition. -/
def coalition_mutex_bid (b : SubtaskBid) (others : List SubtaskBid)
    (agent_coalition : List Nat) : List Nat → ℚ → ℚ
  | [], acc => acc
  | member :: rest, acc =>
      if b.subtask_index == member then coalition_mutex_bid b others agent_coalition rest acc
      else
        let is_mutex := agent_coalition.all
          (fun m => ¬ ((b.task.dependency_matrix.getD member []).getD m 0 ≥ 0))
        if is_mutex then
          coalition_mutex_bid b others agent_coalition rest
            (acc + ((others.getD member default).winning_bid))
        else acc

/-- `SubtaskBid.__mutex_sat`: the agent's coalition bid must strictly exceed
the best bid of any candidate coalition of pairwise-mutex subtasks. -/
def mutex_sat (b : SubtaskBid) (others : List SubtaskBid) : Bool :=
  let (agent_bid, agent_coalition) := agent_coalition_bid b others
  let n := b.task.dependency_matrix.length
  let possible_coalitions := (List.range n).map (fun i =>
    i :: ((List.range ((b.task.dependency_matrix.getD i []).length)).filter
      (fun j => (b.task.dependency_matrix.getD i []).getD j 0 == 1)))
  let max_mutex_bid := possible_coalitions.foldl
    (fun acc coalition => max (coalition_mutex_bid b others agent_coalition coalition 0) acc) 0
  agent_bid > max_mutex_bid

/-- `SubtaskBid.__dep_sat`: optimistic bids start/clear the violation timer and
survive until it times out; pessimistic bids need exact satisfaction.  Returns
the (timer-updated) bid and the verdict. -/
def dep_sat (b : SubtaskBid) (others : List SubtaskBid) (t : ℚ) : SubtaskBid × Bool :=
  let n_sat := b.count_coal_conts_satisied others
  if b.is_optimistic then
    let b' := if b.N_req > n_sat then b.set_violation_timer t else b.reset_violation_timer
    (b', ! b'.has_timed_out t)
  else (b, b.N_req == n_sat)

/-- `SubtaskBid.__temp_sat`: scan `others`; a bid with a winner that is not
independent (`other.dependencies[self.subtask_index] <= 0`) must satisfy the
mutual imaging-time windows, else the scan stops at it. -/
def temp_sat (b : SubtaskBid) : List SubtaskBid → Bool × Option SubtaskBid
  | [] => (true, none)
  | other :: rest =>
      if other.winner == NONE then b.temp_sat rest
      else
        let corr_time_met :=
          b.t_img ≤ other.t_img + b.time_constraints.getD other.subtask_index 0
            ∧ other.t_img ≤ b.t_img + other.time_constraints.getD b.subtask_index 0
        let independent := other.dependencies.getD b.subtask_index 0 ≤ 0
        if ¬ corr_time_met ∧ ¬ independent then (false, some other)
        else b.temp_sat rest

/-- `SubtaskBid.check_constraints`: evaluate the three predicates; on failure
decrement the optimistic bid counters (clamping at zero) and report the bid to
be reset plus the temporal-constraint culprit (if any).  Returns the updated
bid, the `reset_bid` and `const_failed` results of the source. -/
def check_constraints (b : SubtaskBid) (others : List SubtaskBid) (t : ℚ) :
    SubtaskBid × Option SubtaskBid × Option SubtaskBid :=
  let m_sat := b.mutex_sat others
  let (b1, d_sat) := b.dep_sat others t
  let (t_sat, const_failed) := b1.temp_sat others
  if ¬ m_sat ∨ ¬ d_sat ∨ ¬ t_sat then
    let b2 :=
      if b1.is_optimistic then
        let bid_any1 := b1.bid_any - 1
        let bid_any2 := if bid_any1 > 0 then bid_any1 else 0
        let bid_solo1 := b1.bid_solo - 1
        let bid_solo2 := if bid_solo1 ≥ 0 then bid_solo1 else 0
        { b1 with bid_any := bid_any2, bid_solo := bid_solo2 }
      else b1
    (b2, some b2, const_failed)
  else (b1, none, none)

end SubtaskBid

/-! ## The planner's results ledger

`results : request_id → list of bids (one per subtask index)`, a Python dict
modelled as an association list. -/

/-- The bid ledger: request id to the list of subtask bids. -/
abbrev Results := List (Nat × List SubtaskBid)

/-- Dict lookup `results[id]` (empty on a miss; call sites carry presence
hypotheses where the value matters). -/
def findBids (results : Results) (id : Nat) : List SubtaskBid :=
  ((results.find? (fun e => e.1 == id)).map Prod.snd).getD []

/-- `id in results`. -/
def hasTask (results : Results) (id : Nat) : Bool :=
  (results.find? (fun e => e.1 == id)).isSome

/-- Dict store `results[id] = bids` (replaces the first binding, else appends). -/
def setBids (results : Results) (id : Nat) (bids : List SubtaskBid) : Results :=
  if hasTask results id then
    results.map (fun e => if e.1 == id then (id, bids) else e)
  else results ++ [(id, bids)]

/-- `results[id][subtask_index] = bid`. -/
def setBid (results : Results) (id : Nat) (subtask_index : Nat) (b : SubtaskBid) : Results :=
  setBids results id ((findBids results id).set subtask_index b)

/-! ## Consensus phase (`ACCBBAPlannerModule`, accbba.py)

Each sub-stage takes and returns `(results, bundle, path, …)`.  The in-place
`bundle.pop(i)` / `path.remove(pair)` loops of the source become folds over
the dropped suffix of the bundle. -/

/-- The suffix-release loop of `compare_results`: for each dropped pair, erase
it from the path and, if the local agent currently wins its bid, reset the bid
and record it in `rebroadcasts` and `changes`. -/
def releaseTailCompare (selfName : String) (t : ℚ) :
    List Pair → Results × List Pair × List SubtaskBid × List SubtaskBid →
    Results × List Pair × List SubtaskBid × List SubtaskBid
  | [], acc => acc
  | (task, subtask_index) :: rest, (results, path, rebroadcasts, changes) =>
      let path' := path.erase (task, subtask_index)
      let current_bid := (findBids results task.id).getD subtask_index default
      if current_bid.winner == selfName then
        let rb := current_bid.reset t
        releaseTailCompare selfName t rest
          (setBid results task.id subtask_index rb, path',
           rebroadcasts ++ [rb], changes ++ [rb])
      else releaseTailCompare selfName t rest (results, path', rebroadcasts, changes)

/-- The suffix-release loop of `check_task_completion` and
`check_results_constraints`: erase each dropped pair from the path and reset
its bid; `record` mirrors whether the site appends the reset bid to `changes`
(`check_results_constraints` does, `check_task_completion` does not). -/
def releaseTailReset (t : ℚ) (record : Bool) :
    List Pair → Results × List Pair × List SubtaskBid →
    Results × List Pair × List SubtaskBid
  | [], acc => acc
  | (task, subtask_index) :: rest, (results, path, changes) =>
      let path' := path.erase (task, subtask_index)
      let bid := ((findBids results task.id).getD subtask_index default).reset t
      releaseTailReset t record rest
        (setBid results task.id subtask_index bid, path',
         if record then changes ++ [bid] else changes)

/-- Mutable state threaded through `compare_results`. -/
structure CompareState where
  results : Results
  bundle : List Pair
  path : List Pair
  changes : List SubtaskBid
  rebroadcasts : List SubtaskBid
deriving Repr

/-- The tail of the `compare_results` loop body: if the (updated) own bid on a
bundled pair is no longer won by the local agent, drop that pair and every
subsequent one, releasing the dropped bids. -/
def compareRelease (selfName : String) (t : ℚ) (s : CompareState)
    (results1 : Results) (rebroadcasts1 changes1 : List SubtaskBid)
    (my_bid1 : SubtaskBid) : CompareState :=
  if (my_bid1.task, my_bid1.subtask_index) ∈ s.bundle ∧ my_bid1.winner ≠ selfName then
    let bid_index := s.bundle.indexOf (my_bid1.task, my_bid1.subtask_index)
    let removed := s.bundle.drop bid_index
    let rel := releaseTailCompare selfName t removed (results1, s.path, rebroadcasts1, changes1)
    { results := rel.1, bundle := s.bundle.take bid_index, path := rel.2.1,
      changes := rel.2.2.2, rebroadcasts := rel.2.2.1 }
  else { s with results := results1, changes := changes1, rebroadcasts := rebroadcasts1 }

/-- One iteration of the `compare_results` inbox drain: materialize unknown
requests, apply the bid-update rule, record rebroadcasts/changes, and if the
local agent was displaced on a bundled pair drop that pair and its tail. -/
def compareStep (selfName : String) (t : ℚ) (s : CompareState)
    (their_bid : SubtaskBid) : CompareState :=
  let new_task := ¬ hasTask s.results their_bid.task.id
  let results0 :=
    if new_task then
      setBids s.results their_bid.task.id
        (SubtaskBid.subtask_bids_from_task their_bid.task selfName)
    else s.results
  let my_bid := (findBids results0 their_bid.task.id).getD their_bid.subtask_index default
  let upd := my_bid.update their_bid t
  let my_bid1 := upd.1
  let broadcast_bid := upd.2.1
  let changed := upd.2.2
  let results1 := setBid results0 their_bid.task.id their_bid.subtask_index my_bid1
  let rebroadcasts1 :=
    if broadcast_bid.isSome ∨ new_task then
      s.rebroadcasts ++ [if new_task then my_bid1 else broadcast_bid.getD my_bid1]
    else s.rebroadcasts
  let changes1 :=
    if changed ∨ new_task then
      s.changes ++ [if new_task then my_bid1 else broadcast_bid.getD my_bid1]
    else s.changes
  compareRelease selfName t s results1 rebroadcasts1 changes1 my_bid1

/-- `ACCBBAPlannerModule.compare_results`: drain the inbox of incoming bids.
The `bids_received` log kept by the source is used only for logging and is not
modelled. -/
def compare_results (selfName : String) (results : Results)
    (bundle path : List Pair) (t : ℚ) (inbox : List SubtaskBid) : CompareState :=
  inbox.foldl (compareStep selfName t)
    { results := results, bundle := bundle, path := path, changes := [], rebroadcasts := [] }

/-- The expiration predicate of `check_task_end_time`:
`task.t_end - task.duration < t`. -/
def expirePred (t : ℚ) (p : Pair) : Bool := p.1.t_end - p.1.duration < t

/-- `ACCBBAPlannerModule.check_task_end_time`: drop the first expired pair and
every subsequent one from bundle and path (no bids are reset and no changes
are recorded by this stage). -/
def check_task_end_time (results : Results) (bundle path : List Pair) (t : ℚ) :
    Results × List Pair × List Pair × List SubtaskBid :=
  match bundle.find? (expirePred t) with
  | none => (results, bundle, path, [])
  | some pr =>
      let bundle_index := bundle.indexOf pr
      let removed := bundle.drop bundle_index
      (results, bundle.take bundle_index,
       removed.foldl (fun p q => p.erase q) path, [])

/-- The already-performed test of `check_task_completion`: some subtask bid of
the same request has `0 ≤ t_img < t` and is mutually exclusive
(`dependency_matrix[subtask_index][bid_index] < 0`) with the bundled pair. -/
def completionPred (results : Results) (t : ℚ) (p : Pair) : Bool :=
  (findBids results p.1.id).any (fun subtask_bid =>
    let bid_index := (findBids results p.1.id).indexOf subtask_bid
    subtask_bid.t_img ≥ 0 ∧ subtask_bid.t_img < t
      ∧ (p.1.dependency_matrix.getD p.2 []).getD bid_index 0 < 0)

/-- `ACCBBAPlannerModule.check_task_completion`: drop the first pair already
performed by a mutually exclusive winner, and its tail, resetting the dropped
bids (the stage returns an empty `changes` list). -/
def check_task_completion (results : Results) (bundle path : List Pair) (t : ℚ) :
    Results × List Pair × List Pair × List SubtaskBid :=
  match bundle.find? (completionPred results t) with
  | none => (results, bundle, path, [])
  | some pr =>
      let bundle_index := bundle.indexOf pr
      let removed := bundle.drop bundle_index
      let rel := releaseTailReset t false removed (results, path, [])
      (rel.1, bundle.take bundle_index, rel.2.1, [])

/-- The scan of `check_results_constraints`: walk the bundle in order, running
`check_constraints` on each bid (whose in-place timer/counter mutations
persist in `results`), and stop at the first pair selected for removal. -/
def scanForViolation (t : ℚ) : List Pair → Results → Results × Option Pair
  | [], results => (results, none)
  | (task, subtask_index) :: rest, results =>
      let bids := findBids results task.id
      let bid := bids.getD subtask_index default
      let (bid', reset_bid, const_failed) := bid.check_constraints bids t
      let results' := setBid results task.id subtask_index bid'
      match reset_bid with
      | none => scanForViolation t rest results'
      | some _ =>
          if bid'.is_optimistic then
            match const_failed with
            | none => (results', some (task, subtask_index))
            | some cf =>
                if bid'.t_img ≤ cf.t_img then (results', some (task, subtask_index))
                else scanForViolation t rest results'
          else (results', some (task, subtask_index))

/-- A pair selected by the scan is a member of the scanned bundle. -/
theorem scanForViolation_mem (t : ℚ) :
    ∀ (bundle : List Pair) (results : Results) (pr : Pair),
      (scanForViolation t bundle results).2 = some pr → pr ∈ bundle := by
  intro bundle
  induction bundle with
  | nil => intro results pr h; simp [scanForViolation] at h
  | cons hd rest ih =>
      intro results pr h
      obtain ⟨task, subtask_index⟩ := hd
      simp only [scanForViolation] at h
      split at h
      · exact List.mem_cons_of_mem _ (ih _ _ h)
      · split at h
        · split at h
          · injection h with h
            subst h
            exact List.mem_cons_self _ _
          · split at h
            · injection h with h
              subst h
              exact List.mem_cons_self _ _
            · exact List.mem_cons_of_mem _ (ih _ _ h)
        · injection h with h
          subst h
          exact List.mem_cons_self _ _

/-- `list.index(a)` lands inside the list when `a` is a member. -/
theorem indexOf_lt_length_of_mem {α} [BEq α] [LawfulBEq α] {a : α} {l : List α}
    (h : a ∈ l) : l.indexOf a < l.length := by
  induction l with
  | nil => simp at h
  | cons b t ih =>
      rw [List.indexOf_cons]
      by_cases hba : b == a
      · simp [hba]
      · simp only [hba, cond_false]
        rcases List.mem_cons.mp h with rfl | hm
        · simp at hba
        · exact Nat.succ_lt_succ (ih hm)

/-- `ACCBBAPlannerModule.check_results_constraints`: repeat the scan, dropping
the tail of the bundle from each violating pair (resetting and recording the
dropped bids), until no pair violates its constraints. -/
def check_results_constraints (results : Results) (bundle path : List Pair)
    (t : ℚ) (changes : List SubtaskBid) :
    Results × List Pair × List Pair × List SubtaskBid :=
  match hscan : (scanForViolation t bundle results).2 with
  | none => ((scanForViolation t bundle results).1, bundle, path, changes)
  | some pr =>
      let results1 := (scanForViolation t bundle results).1
      let bundle_index := bundle.indexOf pr
      let removed := bundle.drop bundle_index
      let rel := releaseTailReset t true removed (results1, path, changes)
      check_results_constraints rel.1 (bundle.take bundle_index) rel.2.1 t rel.2.2
termination_by bundle.length
decreasing_by
  have hmem : pr ∈ bundle := scanForViolation_mem t bundle results pr hscan
  have hidx : bundle.indexOf pr < bundle.length := indexOf_lt_length_of_mem hmem
  simpa using hidx

/-- `ACCBBAPlannerModule.consensus_phase`: the four sub-stages in order;
`changes` and `rebroadcasts` accumulate each stage's output. -/
def consensus_phase (selfName : String) (results : Results)
    (bundle path : List Pair) (t : ℚ) (inbox : List SubtaskBid) :
    Results × List Pair × List Pair × List SubtaskBid × List SubtaskBid :=
  let s1 := compare_results selfName results bundle path t inbox
  let e := check_task_end_time s1.results s1.bundle s1.path t
  let d := check_task_completion e.1 e.2.1 e.2.2.1 t
  let c := check_results_constraints d.1 d.2.1 d.2.2.1 t []
  (c.1, c.2.1, c.2.2.1,
   s1.changes ++ e.2.2.2 ++ d.2.2.2 ++ c.2.2.2,
   s1.rebroadcasts ++ e.2.2.2 ++ d.2.2.2 ++ c.2.2.2)

/-! ## Planning phase (`ACCBBAPlannerModule`, accbba.py)

The utility base value (`ACBBAPlannerModule.calc_utility`, whose file is not
under `src/`) and the agent's arrival-time kinematics are the pluggable
policies of the spec (§4.6.4, §9); they enter as function parameters. -/

/-- Modelled from the spec: the agent state (§3 "Agent state") of the missing
`states.py`; only the fields the planner reads are kept, and the
domain-specific `calc_arrival_time` is the pluggable policy of §4.6.4. -/
structure SimulationAgentState where
  pos : List ℚ
  t : ℚ
  instruments : List String
  calc_arrival_time : List ℚ → List ℚ → ℚ → ℚ

/-- `ACCBBAPlannerModule.can_bid`: instrument capability, `t_end ≥ t_curr`,
and the coalition precondition. -/
def can_bid (state : SimulationAgentState) (task : MeasurementTask)
    (subtask_index : Nat) (subtaskbids : List SubtaskBid) : Bool :=
  let subtaskbid := subtaskbids.getD subtask_index default
  if subtaskbid.main_measurement ∉ state.instruments then false
  else if task.t_end < state.t then false
  else
    let n_sat := subtaskbid.count_coal_conts_satisied subtaskbids
    if subtaskbid.is_optimistic then
      subtaskbid.N_req == n_sat || decide (subtaskbid.bid_solo > 0)
        || (decide (subtaskbid.bid_any > 0) && decide (n_sat > 0))
    else subtaskbid.N_req == n_sat

/-- `ACCBBAPlannerModule.bundle_contains_mutex_subtasks`. -/
def bundle_contains_mutex_subtasks (bundle : List Pair) (task : MeasurementTask)
    (subtask_index : Nat) : Bool :=
  bundle.any (fun p =>
    p.1.id == task.id
      && (decide ((p.1.dependency_matrix.getD p.2 []).getD subtask_index 0 < 0)
          || decide ((p.1.dependency_matrix.getD subtask_index []).getD p.2 0 < 0)))

/-- `ACCBBAPlannerModule.task_has_been_performed`: the pair's own bid, or any
subtask bid of the request, has a winner and an imaging time in the past. -/
def task_has_been_performed (results : Results) (task : MeasurementTask)
    (subtask_index : Nat) (t : ℚ) : Bool :=
  let current_bid := (findBids results task.id).getD subtask_index default
  if decide (t > current_bid.t_img) && current_bid.has_winner then true
  else (findBids results task.id).any (fun sb => decide (t > sb.t_img) && sb.has_winner)

/-- `ACCBBAPlannerModule.get_available_tasks`. -/
def get_available_tasks (state : SimulationAgentState) (bundle : List Pair)
    (results : Results) : List Pair :=
  results.foldl (fun acc entry =>
    acc ++ ((List.range entry.2.length).filterMap (fun subtask_index =>
      let subtaskbid := entry.2.getD subtask_index default
      let task := subtaskbid.task
      if bundle_contains_mutex_subtasks bundle task subtask_index then none
      else
        let is_biddable := can_bid state task subtask_index entry.2
        let already_in_bundle := decide ((task, subtaskbid.subtask_index) ∈ bundle)
        let already_performed := task_has_been_performed results task subtask_index state.t
        if is_biddable && !already_in_bundle && !already_performed then
          some (task, subtaskbid.subtask_index)
        else none))) []

/-- The per-candidate bid dictionaries of `planning_phase`/`calc_path_bid`
(`{task_id: {subtask_index: bid}}`), keyed by `(request id, subtask index)`. -/
abbrev BidDict := List ((Nat × Nat) × SubtaskBid)

/-- `bids[id][k]` on a `BidDict` (call sites only read keys they stored). -/
def dictFind (d : BidDict) (id subtask_index : Nat) : SubtaskBid :=
  ((d.find? (fun e => e.1 == (id, subtask_index))).map Prod.snd).getD default

/-- `bids[id][k] = b` on a `BidDict`. -/
def dictSet (d : BidDict) (id subtask_index : Nat) (b : SubtaskBid) : BidDict :=
  if (d.find? (fun e => e.1 == (id, subtask_index))).isSome then
    d.map (fun e => if e.1 == (id, subtask_index) then (e.1, b) else e)
  else d ++ [((id, subtask_index), b)]

/-- `ACCBBAPlannerModule.sum_path_utility`: sums the `own_bid` of each pair's
bid along the path. -/
def sum_path_utility (path : List Pair) (bids : BidDict) : ℚ :=
  path.foldl (fun u p => u + (dictFind bids p.1.id p.2).own_bid) 0

/-- The lexicographic maximum of the time-constraint pairs: the source sorts
them ascending and pops the last one. -/
def maxLex : List (ℚ × ℚ) → Option (ℚ × ℚ)
  | [] => none
  | x :: xs =>
      some (xs.foldl
        (fun a b => if a.1 < b.1 ∨ (a.1 = b.1 ∧ a.2 < b.2) then b else a) x)

/-- `ACCBBAPlannerModule.calc_imaging_time`: earliest arrival clamped to
`t_start`, then pushed to meet the latest active time dependency. -/
def calc_imaging_time (state : SimulationAgentState) (current_results : Results)
    (path : List Pair) (bids : BidDict) (task : MeasurementTask)
    (subtask_index : Nat) : ℚ :=
  let i := path.indexOf (task, subtask_index)
  let prev : ℚ × List ℚ :=
    if i == 0 then (state.t, state.pos)
    else
      let prev_pair := path.getD (i - 1) default
      let bid_prev := dictFind bids prev_pair.1.id prev_pair.2
      (bid_prev.t_img + prev_pair.1.duration, prev_pair.1.pos)
  let t_img0 := state.calc_arrival_time prev.2 task.pos prev.1
  let t_img1 := if t_img0 ≥ task.t_start then t_img0 else task.t_start
  let t_consts := (List.range (findBids current_results task.id).length).filterMap
    (fun subtask_index_dep =>
      let dep_bid := (findBids current_results task.id).getD subtask_index_dep default
      if dep_bid.winner == NONE then none
      else if (task.dependency_matrix.getD subtask_index []).getD subtask_index_dep 0 > 0 then
        some (dep_bid.t_img,
              (task.time_dependency_matrix.getD subtask_index []).getD subtask_index_dep 0)
      else none)
  match maxLex t_consts with
  | none => t_img1
  | some (t_const, t_corr) =>
      if t_img1 + t_corr < t_const then t_const - t_corr else t_img1

/-- `ACCBBAPlannerModule.calc_cost` (src): the default cost policy returns 0. -/
def calc_cost (_task : MeasurementTask) (_subtask_index : Nat) (_t_img : ℚ) : ℚ := 0

/-- `ACCBBAPlannerModule.calc_utility`: base utility (the missing ACBBA-layer
policy, a parameter here) scaled by the coalition factor `α / k`, minus the
cost.  (The source divides `k` by `len(task.measurements)`; rationals put the
empty-measurement division at 0 where Python would raise.) -/
def calc_utility (utilityBase : MeasurementTask → ℚ → ℚ) (task : MeasurementTask)
    (subtask_index : Nat) (t_img : ℚ) : ℚ :=
  let utility := utilityBase task t_img
  let dependent_measurements := (task.measurement_groups.getD subtask_index ("", [])).2
  let k : ℚ := (dependent_measurements.length : ℚ) + 1
  let alpha : ℚ := if k / (task.measurements.length : ℚ) == (1 : ℚ) then 1 else 1 / 3
  utility * alpha / k - calc_cost task subtask_index t_img

/-- `ACCBBAPlannerModule.calc_path_bid`: reject candidates mutex with the
current path; otherwise try every insertion position, rebuilding all bids of
the candidate path, and keep the insertion with the best path utility
(strictly above 0, else no path is found). -/
def calc_path_bid (utilityBase : MeasurementTask → ℚ → ℚ)
    (state : SimulationAgentState) (original_results : Results)
    (original_path : List Pair) (task : MeasurementTask) (subtask_index : Nat) :
    Option (List Pair × BidDict) × ℚ :=
  if original_path.any (fun p =>
      p.1.id == task.id
        && decide ((task.dependency_matrix.getD p.2 []).getD subtask_index 0 < 0)) then
    (none, 0)
  else
    (List.range (original_path.length + 1)).foldl
      (fun acc i =>
        let path := original_path.insertIdx i (task, subtask_index)
        let bids := path.foldl (fun bids p =>
            let t_img := calc_imaging_time state original_results path bids p.1 p.2
            let utility := calc_utility utilityBase p.1 p.2 t_img
            let bid := ((findBids original_results p.1.id).getD p.2 default).set_bid
              utility t_img state.t
            dictSet bids p.1.id p.2 bid) []
        let path_utility := sum_path_utility path bids
        if path_utility > acc.2 then (some (path, bids), path_utility) else acc)
      (none, 0)

/-- `ACCBBAPlannerModule.coalition_test`: the proposed coalition bid must beat
the current winner's coalition bid. -/
def coalition_test (current_results : Results) (proposed_bid : SubtaskBid) : Bool :=
  let bids := findBids current_results proposed_bid.task.id
  let current_bid := bids.getD proposed_bid.subtask_index default
  let totals := bids.foldl
    (fun (acc : ℚ × ℚ) bid_i =>
      let bid_i_index := bids.indexOf bid_i
      let agent_bid :=
        if bid_i.winner == proposed_bid.winner
            && decide (proposed_bid.dependencies.getD bid_i_index 0 = 1) then
          acc.1 + bid_i.winning_bid
        else acc.1
      let coalition_bid :=
        if bid_i.winner == current_bid.winner
            && decide (current_bid.dependencies.getD bid_i_index 0 ≥ 0) then
          acc.2 + bid_i.winning_bid
        else acc.2
      (agent_bid, coalition_bid))
    (proposed_bid.winning_bid, 0)
  totals.1 > totals.2

/-- `ACCBBAPlannerModule.mutex_test`: the source inlines the body of
`SubtaskBid.__mutex_sat` with `others = current_results[task_id]`. -/
def mutex_test (current_results : Results) (proposed_bid : SubtaskBid) : Bool :=
  proposed_bid.mutex_sat (findBids current_results proposed_bid.task.id)

/-- The candidate-selection state of the `planning_phase` while-loop
(`max_task`, `max_path`, `max_path_bids`, `max_path_utility`, `max_utility`;
all but `max_task` persist across iterations of the while-loop). -/
structure PlanScan where
  max_task : Option Pair
  max_path : List Pair
  max_path_bids : BidDict
  max_path_utility : ℚ
  max_utility : ℚ

/-- One candidate of the greedy scan in `planning_phase`: keep the candidate
if a path was found, it improves `max_utility` (or none is held yet), and it
passes the coalition and mutex tests. -/
def planScanStep (utilityBase : MeasurementTask → ℚ → ℚ)
    (state : SimulationAgentState) (results : Results) (path : List Pair)
    (s : PlanScan) (cand : Pair) : PlanScan :=
  match calc_path_bid utilityBase state results path cand.1 cand.2 with
  | (none, _) => s
  | (some (projected_path, projected_bids), projected_path_utility) =>
      let bid_utility := (dictFind projected_bids cand.1.id cand.2).winning_bid
      if s.max_task.isNone ∨ bid_utility > s.max_utility then
        let proposed_bid := dictFind projected_bids cand.1.id cand.2
        if ¬ coalition_test results proposed_bid ∨ ¬ mutex_test results proposed_bid then s
        else
          { max_task := some cand, max_path := projected_path,
            max_path_bids := projected_bids,
            max_path_utility := projected_path_utility, max_utility := bid_utility }
      else s

/-- The bid-commit block at the end of each `planning_phase` iteration: write
the winning path's bids into `results`, recording the pairs whose bid changed. -/
def commitBids (path : List Pair) (max_path_bids : BidDict)
    (results : Results) (changes_to_bundle : List Pair) : Results × List Pair :=
  path.foldl
    (fun (acc : Results × List Pair) p =>
      let new_bid := dictFind max_path_bids p.1.id p.2
      let old_bid := (findBids acc.1 p.1.id).getD p.2 default
      let ctb := if old_bid ≠ new_bid then acc.2 ++ [p] else acc.2
      (setBid acc.1 p.1.id p.2 new_bid, ctb))
    (results, changes_to_bundle)

/-- A scan step leaves `max_task` alone or selects the scanned candidate. -/
theorem planScanStep_max_task (utilityBase : MeasurementTask → ℚ → ℚ)
    (state : SimulationAgentState) (results : Results) (path : List Pair)
    (s : PlanScan) (cand : Pair) :
    (planScanStep utilityBase state results path s cand).max_task = s.max_task
      ∨ (planScanStep utilityBase state results path s cand).max_task = some cand := by
  simp only [planScanStep]
  rcases h : calc_path_bid utilityBase state results path cand.1 cand.2 with ⟨p?, u⟩
  cases p? with
  | none => left; rfl
  | some pb =>
      obtain ⟨pp, pbids⟩ := pb
      dsimp only
      split
      · split
        · left; rfl
        · right; rfl
      · left; rfl

/-- The full scan leaves `max_task` alone or selects a member of the
candidate list. -/
theorem planScan_foldl_max_task (utilityBase : MeasurementTask → ℚ → ℚ)
    (state : SimulationAgentState) (results : Results) (path : List Pair) :
    ∀ (l : List Pair) (s : PlanScan),
      (l.foldl (planScanStep utilityBase state results path) s).max_task = s.max_task
        ∨ ∃ c ∈ l,
            (l.foldl (planScanStep utilityBase state results path) s).max_task = some c := by
  intro l
  induction l with
  | nil => intro s; left; rfl
  | cons a l ih =>
      intro s
      rcases ih (planScanStep utilityBase state results path s a) with h | ⟨c, hc, h⟩
      · rcases planScanStep_max_task utilityBase state results path s a with h' | h'
        · left; rw [List.foldl_cons, h, h']
        · right; exact ⟨a, List.mem_cons_self _ _, by rw [List.foldl_cons, h, h']⟩
      · right; exact ⟨c, List.mem_cons_of_mem _ hc, by rw [List.foldl_cons]; exact h⟩

/-- The while-loop of `planning_phase`: scan the available pairs, commit the
best insertion, and repeat until the bundle is full, no candidates remain, or
no candidate is accepted. -/
def planningLoop (utilityBase : MeasurementTask → ℚ → ℚ)
    (state : SimulationAgentState) (l_bundle : Nat)
    (available : List Pair) (results : Results) (bundle path : List Pair)
    (changes_to_bundle : List Pair) (scanCarry : PlanScan) :
    Results × List Pair × List Pair × List Pair :=
  if bundle.length < l_bundle ∧ available ≠ [] then
    let scan1 := available.foldl (planScanStep utilityBase state results path)
      { scanCarry with max_task := none }
    match hscan : scan1.max_task with
    | some c =>
        let bundle' := bundle ++ [c]
        let path' := scan1.max_path
        let available' := available.erase c
        let rc := commitBids path' scan1.max_path_bids results changes_to_bundle
        planningLoop utilityBase state l_bundle available' rc.1 bundle' path' rc.2 scan1
    | none =>
        let rc := commitBids path scan1.max_path_bids results changes_to_bundle
        (rc.1, bundle, path, rc.2)
  else (results, bundle, path, changes_to_bundle)
termination_by available.length
decreasing_by
  have hc : c ∈ available := by
    rcases planScan_foldl_max_task utilityBase state results path available
        { scanCarry with max_task := none } with h | ⟨c', hc', h⟩
    · rw [hscan] at h; simp at h
    · rw [hscan] at h
      injection h with h
      exact h ▸ hc'
  have h1 := List.length_erase_of_mem hc
  have h2 := List.length_pos_of_mem hc
  omega

/-- `ACCBBAPlannerModule.planning_phase`: compute the available pairs, run the
greedy insertion loop, and report the bids of the pairs whose results entry
changed. -/
def planning_phase (utilityBase : MeasurementTask → ℚ → ℚ)
    (state : SimulationAgentState) (l_bundle : Nat) (results : Results)
    (bundle path : List Pair) :
    Results × List Pair × List Pair × List SubtaskBid :=
  let available := get_available_tasks state bundle results
  let current_bids : BidDict := bundle.foldl
    (fun d p => dictSet d p.1.id p.2 ((findBids results p.1.id).getD p.2 default)) []
  let max_path_bids : BidDict := path.foldl
    (fun d p => dictSet d p.1.id p.2 ((findBids results p.1.id).getD p.2 default)) []
  let scan : PlanScan :=
    { max_task := none, max_path := path, max_path_bids := max_path_bids,
      max_path_utility := sum_path_utility path current_bids, max_utility := 0 }
  let out := planningLoop utilityBase state l_bundle available results bundle path [] scan
  (out.1, out.2.1, out.2.2.1,
   out.2.2.2.map (fun p => (findBids out.1 p.1.id).getD p.2 default))

/-! ## The greedy planner's bid (`GreedyBid`, greedy.py) -/

/-- `GreedyBid` (greedy.py): the collaboration-free bid of the greedy
planner; only the fields its `update` touches are modelled. -/
structure GreedyBid where
  req_id : Nat
  subtask_index : Nat
  main_measurement : String
  bidder : String
  own_bid : ℚ := 0
  winning_bid : ℚ := 0
  winner : String := NONE
  t_img : ℚ := -1
  t_update : ℚ := -1
deriving DecidableEq, Repr, Inhabited

/-- `GreedyBid.update` (greedy.py): the adoption test of the source.  Its
adopting branch calls `self._update_info(other)` (greedy.py:141) without the
`t_update` argument required by the `GreedyBid._update_info` override
(greedy.py:146), so in the source every adoption raises `TypeError` at
argument binding, before any field is written — modelled as `Except.error`.
Only the non-adopting path completes: it records `t_update` and returns the
otherwise unchanged bid. -/
def GreedyBid.update (mine other : GreedyBid) (t_update : ℚ) :
    Except String GreedyBid :=
  let adopt : Bool :=
    other.winning_bid > mine.winning_bid
      || (other.winning_bid == mine.winning_bid
          && tie_breaker_names mine.bidder other.bidder)
  if adopt then .error "TypeError"
  else .ok { mine with t_update := t_update }

/-! ## Manager clock protocol (`PlanningSimulationManager`, manager.py)

`wait_for_tic_requests` is a read loop over the manager's reply socket; we
model the stream of incoming messages as a list and the blocking read of an
exhausted stream as `none`. -/

/-- Modelled from the spec: `SimulationElementRoles.ENVIRONMENT.value` (the
enum lives in the missing newer `dmas.messages`); the manager tests roles by
substring containment of this tag in the element name. -/
def ENVIRONMENT : String := "ENVIRONMENT"

/-- Python's `needle in hay` on strings. -/
def strContains (hay needle : String) : Bool :=
  (List.range (hay.data.length + 1)).any
    (fun i => needle.data.isPrefixOf (hay.data.drop i))

/-- `SimulationElementRoles.ENVIRONMENT.value in name`. -/
def isEnvName (name : String) : Bool := strContains name ENVIRONMENT

/-- `PlanningSimulationManager._check_element_list`: the roster must contain
exactly one environment (an `AttributeError` is raised otherwise). -/
def check_element_list (roster : List String) : Bool :=
  (roster.filter isEnvName).length == 1

/-- One message read from the manager's reply socket: its sender and whether
its `msg_type` is `TIC_REQ` (the payload plays no role in the wait loop). -/
structure IncomingMsg where
  src : String
  is_tic_req : Bool
deriving DecidableEq, Repr

/-- The manager's reply to one incoming message:
`ManagerReceptionAckMessage` or `ManagerReceptionIgnoredMessage`. -/
inductive ManagerResponse
  | ack
  | ignored
deriving DecidableEq, Repr

/-- One iteration of the `wait_for_tic_requests` loop body: the response sent
and the updated keys of `received_messages`.  Non-`TIC_REQ` messages and
environment senders, non-rostered senders (under both the plain and the
`network_name/src` form), and duplicate senders are ignored. -/
def waitStep (roster : List String) (netName : String) (received : List String)
    (m : IncomingMsg) : ManagerResponse × List String :=
  if ¬ m.is_tic_req ∨ isEnvName m.src then (.ignored, received)
  else if m.src ∉ roster ∧ (netName ++ "/" ++ m.src) ∉ roster then (.ignored, received)
  else if m.src ∈ received then (.ignored, received)
  else (.ack, received ++ [m.src])

/-- `PlanningSimulationManager.wait_for_tic_requests`: loop while fewer than
`len(roster) - 1` senders have been accepted (and the roster has more than
one element), reading one message per iteration; `none` models blocking on an
exhausted stream. -/
def wait_for_tic_requests (roster : List String) (netName : String)
    (msgs : List IncomingMsg) (received : List String) : Option (List String) :=
  if received.length < roster.length - 1 ∧ roster.length > 1 then
    match msgs with
    | [] => none
    | m :: rest =>
        wait_for_tic_requests roster netName rest (waitStep roster netName received m).2
  else some received
termination_by structural msgs

/-! ## Messaging substrate capability checks (`NetworkElement`, network.py) -/

/-- The zmq socket types used by the substrate. -/
inductive SocketType
  | REQ
  | REP
  | PUB
  | SUB
  | PUSH
  | PULL
deriving DecidableEq, Repr

/-- The two failure modes of `__send_msg`/`_receive_msg` before any I/O:
a socket-map miss (`KeyError`) and a capability mismatch (`RuntimeError`). -/
inductive NetworkError
  | keyError
  | capabilityError
deriving DecidableEq, Repr

/-- `NetworkElement.__send_msg`, up to the successful dispatch: look up the
socket (a map modelled by its key set), then require a sending-capable type
(`REQ`, `REP`, `PUB` or `PUSH`). -/
def send_msg_check (socket_map : List SocketType) (socket_type : SocketType) :
    Except NetworkError Unit :=
  if socket_type ∉ socket_map then .error .keyError
  else if socket_type ≠ .REQ ∧ socket_type ≠ .REP
      ∧ socket_type ≠ .PUB ∧ socket_type ≠ .PUSH then
    .error .capabilityError
  else .ok ()

/-- `NetworkElement._receive_msg`, up to the successful read: look up the
socket, then require a receiving-capable type (`REQ`, `REP`, `SUB` or
`PULL`). -/
def receive_msg_check (socket_map : List SocketType) (socket_type : SocketType) :
    Except NetworkError Unit :=
  if socket_type ∉ socket_map then .error .keyError
  else if socket_type ≠ .REQ ∧ socket_type ≠ .REP
      ∧ socket_type ≠ .SUB ∧ socket_type ≠ .PULL then
    .error .capabilityError
  else .ok ()

/-! ## General helper lemmas -/

/-- Invariant preservation along a left fold. -/
theorem foldl_invariant {α β : Type _} (f : β → α → β) (P : β → Prop) :
    ∀ (l : List α) (s : β), P s → (∀ b a, a ∈ l → P b → P (f b a)) →
      P (l.foldl f s) := by
  intro l
  induction l with
  | nil => intro s hs _; simpa using hs
  | cons a l ih =>
      intro s hs hstep
      rw [List.foldl_cons]
      exact ih _ (hstep s a (List.mem_cons_self _ _) hs)
        (fun b x hx hb => hstep b x (List.mem_cons_of_mem _ hx) hb)

/-- `List.erase` respects permutations (stated for the ambient `BEq`
instance). -/
theorem perm_erase_beq {α : Type _} [BEq α] [LawfulBEq α] (a : α)
    {l₁ l₂ : List α} (h : l₁.Perm l₂) : (l₁.erase a).Perm (l₂.erase a) := by
  induction h with
  | nil => exact List.Perm.refl _
  | cons x h12 ih =>
      rw [List.erase_cons, List.erase_cons]
      cases hx : x == a with
      | true => simpa [hx] using h12
      | false => simpa [hx] using ih.cons x
  | swap x y l =>
      rw [List.erase_cons, List.erase_cons, List.erase_cons, List.erase_cons]
      cases hy : y == a with
      | true =>
          cases hx : x == a with
          | true =>
              have hxy : x = y := by
                rw [eq_of_beq hx, eq_of_beq hy]
              simp [hx, hy, hxy]
          | false => simp [hx, hy]
      | false =>
          cases hx : x == a with
          | true => simp [hx, hy]
          | false =>
              simp only [hx, hy, if_neg, Bool.false_eq_true, List.erase_cons]
              exact List.Perm.swap x y _
  | trans _ _ ih1 ih2 => exact ih1.trans ih2

/-- Erasing, one by one, the elements of `l` from a permutation of
`kept ++ l` leaves a permutation of `kept`. -/
theorem perm_foldl_erase {α : Type _} [BEq α] [LawfulBEq α] :
    ∀ (l kept path : List α), (kept ++ l).Perm path →
      kept.Perm (l.foldl (fun p q => p.erase q) path) := by
  intro l
  induction l with
  | nil => intro kept path h; simpa using h
  | cons a l ih =>
      intro kept path h
      rw [List.foldl_cons]
      apply ih
      have h1 : (a :: (kept ++ l)).Perm path := (List.perm_middle).symm.trans h
      have h2 : ((a :: (kept ++ l)).erase a).Perm (path.erase a) := perm_erase_beq a h1
      rwa [List.erase_cons_head] at h2

/-- `l.insert(i, a)` is a permutation of `a :: l` whenever `i ≤ l.length`. -/
theorem insertIdx_perm {α : Type _} :
    ∀ (i : Nat) (l : List α) (a : α), i ≤ l.length →
      (l.insertIdx i a).Perm (a :: l) := by
  intro i
  induction i with
  | zero => intro l a _; simp [List.insertIdx_zero]
  | succ i ih =>
      intro l a h
      cases l with
      | nil => simp at h
      | cons b l =>
          rw [List.insertIdx_succ_cons]
          have hp := (ih l a (Nat.le_of_succ_le_succ h)).cons b
          exact hp.trans (List.Perm.swap a b l)

/-! ## Concrete fixtures -/

/-- A two-subtask request with a symmetric dependency matrix (end-to-end
scenario 4 of the spec). -/
def task0 : MeasurementTask :=
  { id := 0, pos := [5, 5], t_start := 0, t_end := 10, duration := 1,
    measurement_groups := [("mwr", ["thermal"]), ("thermal", ["mwr"])],
    measurements := ["mwr", "thermal"],
    dependency_matrix := [[0, 1], [1, 0]],
    time_dependency_matrix := [[0, 2], [2, 0]] }

/-- A single-subtask request with no dependencies (end-to-end scenario 1 of
the spec). -/
def task1 : MeasurementTask :=
  { id := 1, pos := [3, 4], t_start := 0, t_end := 10, duration := 1,
    measurement_groups := [("mwr", [])],
    measurements := ["mwr"],
    dependency_matrix := [[0]],
    time_dependency_matrix := [[0]] }

/-- A fresh bid of agent `A` on subtask 0 of `task0`. -/
def bidA0 : SubtaskBid :=
  { task := task0, subtask_index := 0, main_measurement := "mwr",
    dependencies := [0, 1], time_constraints := [0, 2], bidder := "AGENT_A" }

/-- A fresh bid of agent `A` on subtask 1 of `task0`. -/
def bidA1 : SubtaskBid :=
  { task := task0, subtask_index := 1, main_measurement := "thermal",
    dependencies := [1, 0], time_constraints := [2, 0], bidder := "AGENT_A" }

/-- A winning bid of agent `B` on subtask 1 of `task0`. -/
def bidB1 : SubtaskBid :=
  { task := task0, subtask_index := 1, main_measurement := "thermal",
    dependencies := [1, 0], time_constraints := [2, 0], bidder := "AGENT_B",
    own_bid := 3, winning_bid := 3, winner := "AGENT_B", t_img := 4 }

/-! ## C9 — socket capability checks -/

/-- C9: for a socket type present in the element's socket map, sending raises
the capability error exactly when the type is none of publish, push, request
or reply, and receiving raises it exactly when the type is none of subscribe,
pull, request or reply; with the matching capability the checks succeed. -/
theorem socket_capability_spec (socket_map : List SocketType) (st : SocketType)
    (hmem : st ∈ socket_map) :
    (send_msg_check socket_map st = .error .capabilityError ↔
      (st ≠ .PUB ∧ st ≠ .PUSH ∧ st ≠ .REQ ∧ st ≠ .REP))
    ∧ (receive_msg_check socket_map st = .error .capabilityError ↔
      (st ≠ .SUB ∧ st ≠ .PULL ∧ st ≠ .REQ ∧ st ≠ .REP))
    ∧ ((st = .PUB ∨ st = .PUSH ∨ st = .REQ ∨ st = .REP) →
        send_msg_check socket_map st = .ok ())
    ∧ ((st = .SUB ∨ st = .PULL ∨ st = .REQ ∨ st = .REP) →
        receive_msg_check socket_map st = .ok ()) := by
  cases st <;> simp [send_msg_check, receive_msg_check, hmem]

/-- C9 witness: the publish socket of a `[PUB, SUB]` map may send and may not
receive. -/
theorem socket_capability_spec_witness :
    send_msg_check [SocketType.PUB, SocketType.SUB] SocketType.PUB = .ok ()
      ∧ receive_msg_check [SocketType.PUB, SocketType.SUB] SocketType.PUB
          = .error .capabilityError := by
  constructor
  · exact (socket_capability_spec [SocketType.PUB, SocketType.SUB] SocketType.PUB
      (by decide)).2.2.1 (Or.inl rfl)
  · exact ((socket_capability_spec [SocketType.PUB, SocketType.SUB] SocketType.PUB
      (by decide)).2.1).mpr (by decide)

/-! ## C3 — bid reset -/

/-- The input refuting C3 as stated: a bid whose tracked winner is another
agent, with a running violation timer. -/
def bidC3 : SubtaskBid :=
  { task := task0, subtask_index := 0, main_measurement := "mwr",
    dependencies := [0, 1], time_constraints := [0, 2], bidder := "AGENT_A",
    own_bid := 1, winning_bid := 3, winner := "AGENT_B", t_img := 4,
    t_violation := 5 }

/-- C3 counterexample: resetting a bid whose winner is another agent clears
`winner`, `winning_bid` and `t_img` but leaves the violation timer running
(`t_violation = 5`, not `-1`), against the claim's "regardless of which agent
was the winner". -/
theorem reset_keeps_foreign_violation_timer :
    (bidC3.reset 6).winner = NONE ∧ (bidC3.reset 6).winning_bid = 0
      ∧ (bidC3.reset 6).t_img < 0 ∧ (bidC3.reset 6).t_violation = 5
      ∧ ¬ (bidC3.reset 6).t_violation = -1 := by
  decide

/-- C3 (amended): after `b.reset t`, `winner = NONE`, `winning_bid = 0` and
`t_img < 0` hold; the violation timer is cleared only when the bid's own agent
was the winner before the reset, and is left unchanged otherwise. -/
theorem reset_spec (b : SubtaskBid) (t : ℚ) :
    (b.reset t).winner = NONE ∧ (b.reset t).winning_bid = 0
      ∧ (b.reset t).t_img < 0
      ∧ (b.reset t).t_violation =
          (if b.winner = b.bidder then (-1 : ℚ) else b.t_violation) := by
  unfold SubtaskBid.reset TaskBid.reset_base SubtaskBid.reset_violation_timer
  split <;> simp_all

/-! ## C2 — bid update rule -/

/-- C2: `SubtaskBid.update` (accbba.py) adopts `other`'s `winner`,
`winning_bid` and `t_img` exactly when `other.winning_bid > mine.winning_bid`
or the bids are equal and the tie-breaker resolves in `other`'s favor, always
setting `t_update := t` and leaving `own_bid` unchanged, as claimed.
`GreedyBid.update` (greedy.py) tests the same condition, but its adopting
branch raises `TypeError` in the source (greedy.py:141 passes one argument to
the two-argument `_update_info` override of greedy.py:146), so against the
claim no adoption ever succeeds there; only its non-adopting path conforms,
recording `t_update` and leaving every other field unchanged. -/
theorem bid_update_spec :
    (∀ (mine other : SubtaskBid) (t : ℚ),
      (mine.update other t).1.own_bid = mine.own_bid
      ∧ (mine.update other t).1.t_update = t
      ∧ ((other.winning_bid > mine.winning_bid
          ∨ (other.winning_bid = mine.winning_bid ∧ tie_breaker mine other = true)) →
            (mine.update other t).1.winner = other.winner
            ∧ (mine.update other t).1.winning_bid = other.winning_bid
            ∧ (mine.update other t).1.t_img = other.t_img)
      ∧ (¬ (other.winning_bid > mine.winning_bid
          ∨ (other.winning_bid = mine.winning_bid ∧ tie_breaker mine other = true)) →
            (mine.update other t).1.winner = mine.winner
            ∧ (mine.update other t).1.winning_bid = mine.winning_bid
            ∧ (mine.update other t).1.t_img = mine.t_img))
    ∧ (∀ (mine other : GreedyBid) (t : ℚ),
      ((other.winning_bid > mine.winning_bid
          ∨ (other.winning_bid = mine.winning_bid
              ∧ tie_breaker_names mine.bidder other.bidder = true)) →
        mine.update other t = .error "TypeError")
      ∧ (¬ (other.winning_bid > mine.winning_bid
          ∨ (other.winning_bid = mine.winning_bid
              ∧ tie_breaker_names mine.bidder other.bidder = true)) →
        mine.update other t = .ok { mine with t_update := t })) := by
  constructor
  · intro mine other t
    have hfst : (mine.update other t).1 = (TaskBid.update_base mine other t).1 := by
      simp only [SubtaskBid.update]
      rcases h : TaskBid.update_base mine other t with ⟨m1, bo, ch⟩
      cases bo with
      | none => rfl
      | some b => dsimp only; split <;> rfl
    rw [hfst]
    by_cases hc : other.winning_bid > mine.winning_bid
        ∨ (other.winning_bid = mine.winning_bid ∧ tie_breaker mine other = true)
    · have hb : (decide (other.winning_bid > mine.winning_bid)
          || (other.winning_bid == mine.winning_bid && tie_breaker mine other)) = true := by
        simpa using hc
      have hres : (TaskBid.update_base mine other t).1
          = { mine with winner := other.winner, winning_bid := other.winning_bid,
                        t_img := other.t_img, t_update := t } := by
        simp only [TaskBid.update_base, hb, if_true]
      rw [hres]
      exact ⟨rfl, rfl, fun _ => ⟨rfl, rfl, rfl⟩, fun h => absurd hc h⟩
    · have hb : (decide (other.winning_bid > mine.winning_bid)
          || (other.winning_bid == mine.winning_bid && tie_breaker mine other)) = false := by
        simpa using hc
      have hres : (TaskBid.update_base mine other t).1
          = { mine with t_update := t } := by
        simp only [TaskBid.update_base, hb, Bool.false_eq_true, if_false]
      rw [hres]
      exact ⟨rfl, rfl, fun h => absurd h hc, fun _ => ⟨rfl, rfl, rfl⟩⟩
  · intro mine other t
    by_cases hc : other.winning_bid > mine.winning_bid
        ∨ (other.winning_bid = mine.winning_bid
            ∧ tie_breaker_names mine.bidder other.bidder = true)
    · have hb : (decide (other.winning_bid > mine.winning_bid)
          || (other.winning_bid == mine.winning_bid
              && tie_breaker_names mine.bidder other.bidder)) = true := by
        simpa using hc
      have hres : mine.update other t = .error "TypeError" := by
        simp only [GreedyBid.update, hb, if_true]
      exact ⟨fun _ => hres, fun h => absurd hc h⟩
    · have hb : (decide (other.winning_bid > mine.winning_bid)
          || (other.winning_bid == mine.winning_bid
              && tie_breaker_names mine.bidder other.bidder)) = false := by
        simpa using hc
      have hres : mine.update other t = .ok { mine with t_update := t } := by
        simp only [GreedyBid.update, hb, Bool.false_eq_true, if_false]
      exact ⟨fun h => absurd h hc, fun _ => hres⟩

/-- Agent `A`'s fresh greedy bid on request 1 — the bid the C2 failing input
updates. -/
def gbidA : GreedyBid :=
  { req_id := 1, subtask_index := 0, main_measurement := "mwr",
    bidder := "AGENT_A" }

/-- Agent `B`'s winning greedy bid on request 1 — the incoming bid of the C2
failing input. -/
def gbidB : GreedyBid :=
  { req_id := 1, subtask_index := 0, main_measurement := "mwr",
    bidder := "AGENT_B", own_bid := 3, winning_bid := 3, winner := "AGENT_B",
    t_img := 4 }

/-- C2 witness: agent `A`'s fresh subtask bid adopts `B`'s winning bid of 3
at time 2 (keeping `own_bid`), while the greedy update at the failing input
— `gbidB` outbids `gbidA` — raises the source's `TypeError`. -/
theorem bid_update_spec_witness :
    (3 : ℚ) > bidA1.winning_bid
      ∧ (bidA1.update bidB1 2).1.winner = "AGENT_B"
      ∧ (bidA1.update bidB1 2).1.winning_bid = 3
      ∧ (bidA1.update bidB1 2).1.own_bid = bidA1.own_bid
      ∧ (bidA1.update bidB1 2).1.t_update = 2
      ∧ gbidB.winning_bid > gbidA.winning_bid
      ∧ gbidA.update gbidB 2 = .error "TypeError" := by
  have h := (bid_update_spec.1 bidA1 bidB1 2)
  have hgt : bidB1.winning_bid > bidA1.winning_bid := by decide
  obtain ⟨hown, ht, hadopt, -⟩ := h
  obtain ⟨hw, hwb, -⟩ := hadopt (Or.inl hgt)
  have hgt2 : gbidB.winning_bid > gbidA.winning_bid := by decide
  have herr : gbidA.update gbidB 2 = .error "TypeError" :=
    (bid_update_spec.2 gbidA gbidB 2).1 (Or.inl hgt2)
  exact ⟨by decide, by rw [hw]; decide, by rw [hwb]; decide, hown, ht, hgt2, herr⟩

/-! ## C5 — biddability -/

/-- C5: `can_bid` returns true iff the subtask's main measurement is among
the agent's instruments, `request.t_end ≥ t_curr`, and the coalition
precondition holds (optimistic: all dependencies satisfied, or solo attempts
remain, or any-attempts remain with at least one satisfied dependency;
pessimistic: all dependencies satisfied).  The hypotheses keep the subtask
index and the dependency row inside the ranges the Python code indexes. -/
theorem can_bid_iff (state : SimulationAgentState) (task : MeasurementTask)
    (subtask_index : Nat) (subtaskbids : List SubtaskBid)
    (hk : subtask_index < subtaskbids.length)
    (hlen : (subtaskbids.getD subtask_index default).dependencies.length
        = subtaskbids.length) :
    can_bid state task subtask_index subtaskbids = true ↔
      ((subtaskbids.getD subtask_index default).main_measurement ∈ state.instruments
       ∧ state.t ≤ task.t_end
       ∧ (((subtaskbids.getD subtask_index default).is_optimistic = true
            ∧ ((subtaskbids.getD subtask_index default).N_req
                = (subtaskbids.getD subtask_index default).count_coal_conts_satisied
                    subtaskbids
              ∨ 0 < (subtaskbids.getD subtask_index default).bid_solo
              ∨ (0 < (subtaskbids.getD subtask_index default).bid_any
                  ∧ 0 < (subtaskbids.getD subtask_index default).count_coal_conts_satisied
                      subtaskbids)))
          ∨ ((subtaskbids.getD subtask_index default).is_optimistic = false
              ∧ (subtaskbids.getD subtask_index default).N_req
                  = (subtaskbids.getD subtask_index default).count_coal_conts_satisied
                      subtaskbids))) := by
  have _hk := hk
  have _hlen := hlen
  simp only [can_bid]
  by_cases h1 : (subtaskbids.getD subtask_index default).main_measurement
      ∈ state.instruments
  · rw [if_neg (not_not.mpr h1)]
    by_cases h2 : task.t_end < state.t
    · rw [if_pos h2]
      have hnle : ¬ state.t ≤ task.t_end := not_le.mpr h2
      exact iff_of_false (by simp) (fun h => hnle h.2.1)
    · rw [if_neg h2]
      have h2' : state.t ≤ task.t_end := not_lt.mp h2
      by_cases ho : (subtaskbids.getD subtask_index default).is_optimistic = true
      · rw [if_pos ho]
        simp only [Bool.or_eq_true, Bool.and_eq_true, beq_iff_eq, decide_eq_true_eq]
        constructor
        · intro h
          refine ⟨h1, h2', Or.inl ⟨ho, ?_⟩⟩
          tauto
        · rintro ⟨-, -, (⟨-, h⟩ | ⟨hfo, -⟩)⟩
          · tauto
          · rw [ho] at hfo; cases hfo
      · rw [if_neg ho]
        have ho' : (subtaskbids.getD subtask_index default).is_optimistic = false := by
          revert ho
          cases (subtaskbids.getD subtask_index default).is_optimistic <;> simp
        simp only [beq_iff_eq]
        constructor
        · intro h; exact ⟨h1, h2', Or.inr ⟨ho', h⟩⟩
        · rintro ⟨-, -, (⟨hto, -⟩ | ⟨-, h⟩)⟩
          · exact absurd hto ho
          · exact h
  · rw [if_pos h1]
    exact iff_of_false (by simp) (fun h => h1 h.1)

/-- C5 witness: with instruments `{mwr}` at time 0, agent `A` may bid on the
(pessimistic-free) subtask 0 of `task1`. -/
theorem can_bid_iff_witness :
    can_bid { pos := [0, 0], t := 0, instruments := ["mwr"],
              calc_arrival_time := fun _ _ t => t }
        task1 0
        [{ task := task1, subtask_index := 0, main_measurement := "mwr",
           dependencies := [0], time_constraints := [0], bidder := "AGENT_A" }]
      = true := by
  have h := can_bid_iff
    { pos := [0, 0], t := 0, instruments := ["mwr"],
      calc_arrival_time := fun _ _ t => t }
    task1 0
    [{ task := task1, subtask_index := 0, main_measurement := "mwr",
       dependencies := [0], time_constraints := [0], bidder := "AGENT_A" }]
    (by decide) (by decide)
  exact h.mpr (by decide)

/-! ## C6 — temporal constraint predicate -/

/-- C6, the claim's reading of the temporal predicate: independence is taken
from the scanning bid's own dependency row (`dependency[k][j] ≤ 0`). -/
def temp_sat_claimed (b : SubtaskBid) (others : List SubtaskBid) : Bool :=
  (List.range others.length).all (fun j =>
    let o := others.getD j default
    o.winner == NONE
      || (decide (b.dependencies.getD j 0 ≤ 0)
          || (decide (b.t_img ≤ o.t_img + b.time_constraints.getD j 0)
              && decide (o.t_img ≤ b.t_img + o.time_constraints.getD b.subtask_index 0))))

/-- A request whose dependency matrix is asymmetric: subtask 0 depends on
subtask 1 (`dependency[0][1] = 1`) but not conversely (`dependency[1][0] = 0`). -/
def taskC6 : MeasurementTask :=
  { id := 6, pos := [0, 0], t_start := 0, t_end := 200, duration := 1,
    measurement_groups := [("mwr", ["thermal"]), ("thermal", [])],
    measurements := ["mwr", "thermal"],
    dependency_matrix := [[0, 1], [0, 0]],
    time_dependency_matrix := [[0, 1], [1, 0]] }

/-- The scanning bid of the C6 counterexample (subtask 0, imaging at 100). -/
def bidC6 : SubtaskBid :=
  { task := taskC6, subtask_index := 0, main_measurement := "mwr",
    dependencies := [0, 1], time_constraints := [0, 1], bidder := "AGENT_A",
    t_img := 100 }

/-- The won peer bid of the C6 counterexample (subtask 1, imaging at 0). -/
def otherC6 : SubtaskBid :=
  { task := taskC6, subtask_index := 1, main_measurement := "thermal",
    dependencies := [0, 0], time_constraints := [1, 0], bidder := "AGENT_B",
    winning_bid := 3, winner := "AGENT_B", t_img := 0 }

/-- C6 counterexample: on the asymmetric request, `__temp_sat` reports the
constraint satisfied (it reads the peer's row, `dependency[1][0] = 0`,
so the pair counts as independent), while the claim's
`dependency[0][1] = 1 > 0` demands the — here violated — time windows. -/
theorem temp_sat_counterexample :
    (bidC6.temp_sat [bidC6, otherC6]).1 = true
      ∧ temp_sat_claimed bidC6 [bidC6, otherC6] = false := by
  refine ⟨?_, ?_⟩ <;>
    simp +decide [SubtaskBid.temp_sat, temp_sat_claimed, bidC6, otherC6, NONE,
      List.range_succ]

/-- C6 (amended): `__temp_sat` holds iff for every peer bid `o` with a
winner, either `o`'s own dependency on the scanned subtask is non-positive
(`dependency[j][k] ≤ 0` — the peer's row, not the scanned bid's), or the two
imaging times satisfy both correlation windows. -/
theorem temp_sat_iff (b : SubtaskBid) (others : List SubtaskBid) :
    (b.temp_sat others).1 = true ↔
      ∀ o ∈ others, o.winner ≠ NONE →
        (o.dependencies.getD b.subtask_index 0 ≤ 0
          ∨ (b.t_img ≤ o.t_img + b.time_constraints.getD o.subtask_index 0
              ∧ o.t_img ≤ b.t_img + o.time_constraints.getD b.subtask_index 0)) := by
  induction others with
  | nil => simp [SubtaskBid.temp_sat]
  | cons o rest ih =>
      simp only [SubtaskBid.temp_sat]
      by_cases hw : o.winner == NONE
      · rw [if_pos hw]
        have hw' : o.winner = NONE := beq_iff_eq.mp hw
        simp only [List.forall_mem_cons, hw', ne_eq, not_true_eq_false,
          false_implies, true_and]
        exact ih
      · rw [if_neg hw]
        have hw' : o.winner ≠ NONE := fun h => hw (beq_iff_eq.mpr h)
        by_cases hc : ¬ (b.t_img ≤ o.t_img + b.time_constraints.getD o.subtask_index 0
              ∧ o.t_img ≤ b.t_img + o.time_constraints.getD b.subtask_index 0)
            ∧ ¬ (o.dependencies.getD b.subtask_index 0 ≤ 0)
        · rw [if_pos hc]
          simp only [List.forall_mem_cons]
          constructor
          · intro h; exact absurd h (by simp)
          · intro ⟨h, _⟩
            rcases h hw' with hd | ht
            · exact absurd hd hc.2
            · exact absurd ht hc.1
        · rw [if_neg hc]
          rw [not_and_or, not_not, not_not] at hc
          simp only [List.forall_mem_cons, ih]
          constructor
          · intro h
            refine ⟨fun _ => ?_, h⟩
            rcases hc with hcorr | hdep
            · exact Or.inr hcorr
            · exact Or.inl hdep
          · intro ⟨_, h⟩; exact h

/-- C6 witness for the amended theorem: on the symmetric `task0`, agent `A`'s
fresh bid at `t_img = -1` against `B`'s win at `t_img = 4` violates the
2-second window, and `__temp_sat` indeed reports failure. -/
theorem temp_sat_iff_witness :
    (bidA0.temp_sat [bidA0, bidB1]).1 = false := by
  have h := temp_sat_iff bidA0 [bidA0, bidB1]
  cases hb : (bidA0.temp_sat [bidA0, bidB1]).1 with
  | false => rfl
  | true =>
      exfalso
      have hall := h.mp hb
      have h2 := hall bidB1 (by simp) (by simp [bidB1, NONE])
      rcases h2 with hd | ⟨-, hw2⟩
      · simp [bidB1, bidA0] at hd
      · norm_num [bidB1, bidA0] at hw2

/-! ## C10 — non-negative bid counters -/

/-- `SubtaskBid.__init__`'s validation of the bid counters: negative values
raise a `ValueError` (the non-`int` branch is enforced by the `Int` type of
the embedding). -/
def init_counters_valid (bid_solo bid_any : Int) : Bool :=
  decide (0 ≤ bid_solo) && decide (0 ≤ bid_any)

/-- The bids reachable by the planner: constructed with validated counters
(with the stored maxima equal to the initial values) and mutated only by
`update`, `set_bid`, `reset`, `check_constraints` and `reset_bid_counters`. -/
inductive BidReachable : SubtaskBid → Prop
  | ctor (b : SubtaskBid) (hs : 0 ≤ b.bid_solo) (ha : 0 ≤ b.bid_any)
      (hsm : b.bid_solo_max = b.bid_solo) (ham : b.bid_any_max = b.bid_any) :
      BidReachable b
  | update (b other : SubtaskBid) (t : ℚ) :
      BidReachable b → BidReachable (b.update other t).1
  | set_bid (b : SubtaskBid) (x y z : ℚ) :
      BidReachable b → BidReachable (b.set_bid x y z)
  | reset (b : SubtaskBid) (t : ℚ) :
      BidReachable b → BidReachable (b.reset t)
  | check (b : SubtaskBid) (others : List SubtaskBid) (t : ℚ) :
      BidReachable b → BidReachable (b.check_constraints others t).1
  | reset_counters (b : SubtaskBid) :
      BidReachable b → BidReachable b.reset_bid_counters

/-- The strengthened counter invariant (the maxima are needed for
`reset_bid_counters`). -/
theorem bidReachable_counters {b : SubtaskBid} (h : BidReachable b) :
    0 ≤ b.bid_solo ∧ 0 ≤ b.bid_any ∧ 0 ≤ b.bid_solo_max ∧ 0 ≤ b.bid_any_max := by
  induction h with
  | ctor b hs ha hsm ham => exact ⟨hs, ha, hsm ▸ hs, ham ▸ ha⟩
  | update b other t _ ih =>
      have : (b.update other t).1.bid_solo = b.bid_solo
          ∧ (b.update other t).1.bid_any = b.bid_any
          ∧ (b.update other t).1.bid_solo_max = b.bid_solo_max
          ∧ (b.update other t).1.bid_any_max = b.bid_any_max := by
        simp only [SubtaskBid.update]
        rcases h : TaskBid.update_base b other t with ⟨m1, bo, ch⟩
        have hm1 : m1.bid_solo = b.bid_solo ∧ m1.bid_any = b.bid_any
            ∧ m1.bid_solo_max = b.bid_solo_max ∧ m1.bid_any_max = b.bid_any_max := by
          simp only [TaskBid.update_base] at h
          split at h <;> (injection h with h1 _; exact h1 ▸ ⟨rfl, rfl, rfl, rfl⟩)
        cases bo with
        | none => exact hm1
        | some bb => dsimp only; split <;> exact hm1
      omega
  | set_bid b x y z _ ih => simpa [SubtaskBid.set_bid] using ih
  | reset b t _ ih =>
      have : (b.reset t).bid_solo = b.bid_solo ∧ (b.reset t).bid_any = b.bid_any
          ∧ (b.reset t).bid_solo_max = b.bid_solo_max
          ∧ (b.reset t).bid_any_max = b.bid_any_max := by
        simp only [SubtaskBid.reset, TaskBid.reset_base,
          SubtaskBid.reset_violation_timer]
        split <;> exact ⟨rfl, rfl, rfl, rfl⟩
      omega
  | check b others t _ ih =>
      simp only [SubtaskBid.check_constraints]
      have hdep : (b.dep_sat others t).1.bid_solo = b.bid_solo
          ∧ (b.dep_sat others t).1.bid_any = b.bid_any
          ∧ (b.dep_sat others t).1.bid_solo_max = b.bid_solo_max
          ∧ (b.dep_sat others t).1.bid_any_max = b.bid_any_max := by
        simp only [SubtaskBid.dep_sat, SubtaskBid.set_violation_timer,
          SubtaskBid.reset_violation_timer]
        split
        · split <;> split <;> exact ⟨rfl, rfl, rfl, rfl⟩
        · exact ⟨rfl, rfl, rfl, rfl⟩
      rcases hd : (b.dep_sat others t) with ⟨b1, dsat⟩
      rw [hd] at hdep
      obtain ⟨hd1, hd2, hd3, hd4⟩ := hdep
      obtain ⟨ih1, ih2, ih3, ih4⟩ := ih
      rcases ht : b1.temp_sat others with ⟨tsat, cf⟩
      dsimp only at hd1 hd2 hd3 hd4 ⊢
      split
      · split
        · refine ⟨?_, ?_, ?_, ?_⟩
          · dsimp only; split <;> omega
          · dsimp only; split <;> omega
          · dsimp only; omega
          · dsimp only; omega
        · dsimp only
          exact ⟨by omega, by omega, by omega, by omega⟩
      · dsimp only
        exact ⟨by omega, by omega, by omega, by omega⟩
  | reset_counters b _ ih =>
      simp only [SubtaskBid.reset_bid_counters]
      exact ⟨ih.2.2.1, ih.2.2.2, ih.2.2.1, ih.2.2.2⟩

/-- C10: every reachable bid keeps `bid_solo ≥ 0` and `bid_any ≥ 0`: the
constructor rejects exactly the negative initial values, and the clamped
decrements of `check_constraints` preserve non-negativity. -/
theorem bid_counters_nonneg :
    (∀ b : SubtaskBid, BidReachable b → 0 ≤ b.bid_solo ∧ 0 ≤ b.bid_any)
      ∧ (∀ bid_solo bid_any : Int,
          init_counters_valid bid_solo bid_any = false ↔
            (bid_solo < 0 ∨ bid_any < 0)) := by
  constructor
  · intro b h
    have := bidReachable_counters h
    exact ⟨this.1, this.2.1⟩
  · intro s a
    simp only [init_counters_valid, Bool.and_eq_false_iff, decide_eq_false_iff_not,
      not_le]

/-- C10 witness: after a failed constraint check at time 10 (which decrements
both counters), agent `A`'s fresh bid on `task0`'s subtask 0 still has
non-negative counters. -/
theorem bid_counters_nonneg_witness :
    0 ≤ ((bidA0.check_constraints [bidA0, bidB1] 10).1).bid_solo
      ∧ 0 ≤ ((bidA0.check_constraints [bidA0, bidB1] 10).1).bid_any := by
  exact bid_counters_nonneg.1 _
    (BidReachable.check bidA0 [bidA0, bidB1] 10
      (BidReachable.ctor bidA0 (by decide) (by decide) rfl rfl))

/-! ## C4 — task expiration -/

/-- If position `i` holds the first element satisfying `p`, then `find?`
returns that element. -/
theorem find?_eq_get_of_first {α : Type _} (l : List α) (p : α → Bool) :
    ∀ (i : Nat) (hi : i < l.length), p (l.get ⟨i, hi⟩) = true →
      (∀ j (hj : j < i), p (l.get ⟨j, Nat.lt_trans hj hi⟩) = false) →
      l.find? p = some (l.get ⟨i, hi⟩) := by
  induction l with
  | nil => intro i hi; simp at hi
  | cons a tl ih =>
      intro i hi hp hb
      cases i with
      | zero => simp only [List.get] at hp; simp [List.find?_cons, hp]
      | succ i =>
          have ha : p a = false := hb 0 (Nat.succ_pos i)
          simp only [List.find?_cons, ha, cond_false]
          exact ih i (Nat.lt_of_succ_lt_succ hi) hp
            (fun j hj => hb (j + 1) (Nat.succ_lt_succ hj))

/-- If position `i` holds the first element satisfying `p`, then `index` of
that element is `i` (no earlier element can equal it, as it would satisfy
`p`). -/
theorem indexOf_eq_of_first {α : Type _} [BEq α] [LawfulBEq α]
    (l : List α) (p : α → Bool) :
    ∀ (i : Nat) (hi : i < l.length), p (l.get ⟨i, hi⟩) = true →
      (∀ j (hj : j < i), p (l.get ⟨j, Nat.lt_trans hj hi⟩) = false) →
      l.indexOf (l.get ⟨i, hi⟩) = i := by
  induction l with
  | nil => intro i hi; simp at hi
  | cons a tl ih =>
      intro i hi hp hb
      cases i with
      | zero => simp [List.indexOf_cons]
      | succ i =>
          have ha : p a = false := hb 0 (Nat.succ_pos i)
          have hget : (a :: tl).get ⟨i + 1, hi⟩ = tl.get ⟨i, Nat.lt_of_succ_lt_succ hi⟩ := rfl
          rw [hget] at hp
          have hne : (a == tl.get ⟨i, Nat.lt_of_succ_lt_succ hi⟩) = false := by
            cases h : a == tl.get ⟨i, Nat.lt_of_succ_lt_succ hi⟩ with
            | false => rfl
            | true =>
                have heq := eq_of_beq h
                rw [← heq] at hp
                rw [ha] at hp
                exact Bool.noConfusion hp
          rw [hget, List.indexOf_cons, hne, cond_false,
            ih i (Nat.lt_of_succ_lt_succ hi) hp
              (fun j hj => hb (j + 1) (Nat.succ_lt_succ hj))]

/-- C4: `check_task_end_time` removes nothing when no bundled pair is expired
(`t_end − duration < t_curr`); a pair with `t_end − duration = t_curr` is not
expired; and when position `i` holds the first expired pair (in bundle-scan
order), exactly the pairs from `i` on are removed from the bundle and erased,
in order, from the path, with `results` untouched and no changes recorded. -/
theorem check_task_end_time_spec (results : Results) (bundle path : List Pair)
    (t : ℚ) :
    (∀ pr : Pair, pr.1.t_end - pr.1.duration = t → expirePred t pr = false)
    ∧ ((∀ pr ∈ bundle, expirePred t pr = false) →
        check_task_end_time results bundle path t = (results, bundle, path, []))
    ∧ (∀ (i : Nat) (hi : i < bundle.length),
        expirePred t (bundle.get ⟨i, hi⟩) = true →
        (∀ j (hj : j < i), expirePred t (bundle.get ⟨j, Nat.lt_trans hj hi⟩) = false) →
        check_task_end_time results bundle path t =
          (results, bundle.take i,
           (bundle.drop i).foldl (fun p q => p.erase q) path, [])) := by
  refine ⟨?_, ?_, ?_⟩
  · intro pr h
    simp [expirePred, h]
  · intro h
    have hnone : bundle.find? (expirePred t) = none :=
      List.find?_eq_none.mpr (fun x hx => by simp [h x hx])
    simp [check_task_end_time, hnone]
  · intro i hi hp hb
    have hfind : bundle.find? (expirePred t) = some bundle[i] :=
      find?_eq_get_of_first bundle (expirePred t) i hi hp hb
    have hidx : List.indexOf bundle[i] bundle = i :=
      indexOf_eq_of_first bundle (expirePred t) i hi hp hb
    simp only [check_task_end_time, hfind, hidx]

/-- The expiring request of spec scenario 5: `t_end = 3`, `duration = 2`. -/
def taskExp : MeasurementTask :=
  { id := 5, pos := [1, 1], t_start := 0, t_end := 3, duration := 2,
    measurement_groups := [("mwr", [])],
    measurements := ["mwr"],
    dependency_matrix := [[0]],
    time_dependency_matrix := [[0]] }

/-- C4 witness: at `t = 1` (the boundary `t_end − duration = t`) the bundled
pair survives; at `t = 2` it is dropped from bundle and path. -/
theorem check_task_end_time_spec_witness :
    check_task_end_time [] [(taskExp, 0)] [(taskExp, 0)] 1
        = ([], [(taskExp, 0)], [(taskExp, 0)], [])
      ∧ check_task_end_time [] [(taskExp, 0)] [(taskExp, 0)] 2
        = ([], [], [], []) := by
  constructor
  · exact (check_task_end_time_spec [] [(taskExp, 0)] [(taskExp, 0)] 1).2.1
      (by intro pr hpr
          simp only [List.mem_singleton] at hpr
          subst hpr
          simp only [expirePred, taskExp, decide_eq_false_iff_not, not_lt]
          norm_num)
  · have h := (check_task_end_time_spec [] [(taskExp, 0)] [(taskExp, 0)] 2).2.2
      0 (by simp)
      (by simp only [expirePred, taskExp, List.get, decide_eq_true_eq]
          norm_num)
      (fun j hj => absurd hj (Nat.not_lt_zero j))
    simpa using h

/-! ## C7 — consensus phase with an empty inbox -/

/-- C7: with an empty inbox the bid-comparison stage is the identity on
`(results, bundle, path)` (with no changes or rebroadcasts), so the consensus
phase reduces to the expiration, completion and constraint checks alone. -/
theorem consensus_phase_empty_inbox (selfName : String) (results : Results)
    (bundle path : List Pair) (t : ℚ) :
    compare_results selfName results bundle path t []
        = { results := results, bundle := bundle, path := path,
            changes := [], rebroadcasts := [] }
      ∧ consensus_phase selfName results bundle path t [] =
          (let e := check_task_end_time results bundle path t
           let d := check_task_completion e.1 e.2.1 e.2.2.1 t
           let c := check_results_constraints d.1 d.2.1 d.2.2.1 t []
           (c.1, c.2.1, c.2.2.1,
            e.2.2.2 ++ d.2.2.2 ++ c.2.2.2,
            e.2.2.2 ++ d.2.2.2 ++ c.2.2.2)) :=
  ⟨rfl, rfl⟩

/-! ## C8 — tic-request collection -/

/-- The elements kept by `filter p` and `filter (!p)` partition the list. -/
theorem length_filter_not_add {α : Type _} (p : α → Bool) (l : List α) :
    (l.filter (fun x => ! p x)).length + (l.filter p).length = l.length := by
  induction l with
  | nil => rfl
  | cons a t ih =>
      cases h : p a <;> simp [List.filter_cons, h, ← ih] <;> omega

/-- The invariant carried by the keys of `received_messages`: no duplicates,
no environment names, and every key rostered in plain or prefixed form. -/
def recvInv (roster : List String) (netName : String) (received : List String) : Prop :=
  received.Nodup
    ∧ ∀ s ∈ received, isEnvName s = false
        ∧ (s ∈ roster ∨ netName ++ "/" ++ s ∈ roster)

/-- One loop iteration preserves `recvInv`. -/
theorem waitStep_inv (roster : List String) (netName : String)
    (received : List String) (m : IncomingMsg) (h : recvInv roster netName received) :
    recvInv roster netName (waitStep roster netName received m).2 := by
  simp only [waitStep]
  split
  · exact h
  · split
    · exact h
    · split
      · exact h
      · rename_i h1 h2 h3
        rw [not_or] at h1
        rw [not_and_or, not_not, not_not] at h2
        refine ⟨List.Nodup.append h.1 (List.nodup_singleton _) ?_, ?_⟩
        · intro s hs hs'
          simp only [List.mem_singleton] at hs'
          exact h3 (hs' ▸ hs)
        · intro s hs
          rcases List.mem_append.mp hs with hs | hs
          · exact h.2 s hs
          · simp only [List.mem_singleton] at hs
            subst hs
            exact ⟨Bool.eq_false_iff.mpr h1.2, h2⟩

/-- A normal return of the wait loop keeps the invariant and happens only
once the loop guard has failed. -/
theorem wait_some_inv (roster : List String) (netName : String) :
    ∀ (msgs : List IncomingMsg) (received r : List String),
      recvInv roster netName received →
      wait_for_tic_requests roster netName msgs received = some r →
      recvInv roster netName r
        ∧ ¬ (r.length < roster.length - 1 ∧ roster.length > 1) := by
  intro msgs
  induction msgs with
  | nil =>
      intro received r hinv hrun
      rw [wait_for_tic_requests] at hrun
      split at hrun
      · exact Option.noConfusion hrun
      · rename_i hguard
        injection hrun with hrun
        subst hrun
        exact ⟨hinv, hguard⟩
  | cons m rest ih =>
      intro received r hinv hrun
      rw [wait_for_tic_requests] at hrun
      split at hrun
      · exact ih _ r (waitStep_inv roster netName received m hinv) hrun
      · rename_i hguard
        injection hrun with hrun
        subst hrun
        exact ⟨hinv, hguard⟩

/-- C8 (amended): each incoming message is acknowledged exactly when it is a
`TicRequest` from a non-environment sender that is rostered (in plain or
`network/src` form) and not yet counted, and only then is it added to the
count; all others are answered `ReceptionIgnored` and do not count.  When the
loop returns and every accepted sender name is itself a rostered name (no
`network/src` aliasing occurred), a `TicRequest` from every rostered
non-environment element has been accepted. -/
theorem wait_for_tic_requests_spec :
    (∀ (roster : List String) (netName : String) (received : List String)
        (m : IncomingMsg),
      ((waitStep roster netName received m).1 = .ack ↔
        (m.is_tic_req = true ∧ isEnvName m.src = false
          ∧ (m.src ∈ roster ∨ netName ++ "/" ++ m.src ∈ roster)
          ∧ m.src ∉ received))
      ∧ ((waitStep roster netName received m).1 = .ack →
          (waitStep roster netName received m).2 = received ++ [m.src])
      ∧ ((waitStep roster netName received m).1 = .ignored →
          (waitStep roster netName received m).2 = received))
    ∧ (∀ (roster : List String) (netName : String) (msgs : List IncomingMsg)
        (received : List String),
        roster.Nodup → check_element_list roster = true →
        wait_for_tic_requests roster netName msgs [] = some received →
        (∀ s ∈ received, s ∈ roster) →
        ∀ e ∈ roster, isEnvName e = false → e ∈ received) := by
  constructor
  · intro roster netName received m
    refine ⟨?_, ?_, ?_⟩
    · simp only [waitStep]
      split
      · rename_i h
        constructor
        · intro hc; exact ManagerResponse.noConfusion hc
        · rintro ⟨h1, h2, -, -⟩
          rcases h with h' | h'
          · exact absurd h1 h'
          · rw [h'] at h2; exact Bool.noConfusion h2
      · split
        · rename_i hmsg hro
          constructor
          · intro hc; exact ManagerResponse.noConfusion hc
          · rintro ⟨-, -, hr, -⟩
            rcases hr with hr | hr
            · exact absurd hr hro.1
            · exact absurd hr hro.2
        · split
          · rename_i hmsg hro hdup
            constructor
            · intro hc; exact ManagerResponse.noConfusion hc
            · rintro ⟨-, -, -, hnd⟩; exact absurd hdup hnd
          · rename_i hmsg hro hdup
            rw [not_or] at hmsg
            rw [not_and_or, not_not, not_not] at hro
            constructor
            · intro _
              exact ⟨by simpa using hmsg.1, Bool.eq_false_iff.mpr hmsg.2, hro, hdup⟩
            · intro _; rfl
    · simp only [waitStep]
      split
      · intro hc; exact absurd hc.symm (ManagerResponse.noConfusion)
      · split
        · intro hc; exact absurd hc.symm (ManagerResponse.noConfusion)
        · split
          · intro hc; exact absurd hc.symm (ManagerResponse.noConfusion)
          · intro _; rfl
    · simp only [waitStep]
      split
      · intro _; rfl
      · split
        · intro _; rfl
        · split
          · intro _; rfl
          · intro hc; exact absurd hc.symm (ManagerResponse.noConfusion)
  · intro roster netName msgs received hnd hone hrun hsub e he henv
    obtain ⟨⟨hrnd, hrprop⟩, hguard⟩ :=
      wait_some_inv roster netName msgs [] received ⟨List.nodup_nil, by simp⟩ hrun
    have hFlen : (roster.filter (fun s => ! isEnvName s)).length + 1 = roster.length := by
      have h1 : (roster.filter isEnvName).length = 1 := by
        simpa [check_element_list] using hone
      have := length_filter_not_add isEnvName roster
      omega
    have hsubF : received ⊆ roster.filter (fun s => ! isEnvName s) := by
      intro s hs
      exact List.mem_filter.mpr ⟨hsub s hs, by simp [(hrprop s hs).1]⟩
    have hsp : List.Subperm received (roster.filter (fun s => ! isEnvName s)) :=
      List.subperm_of_subset hrnd hsubF
    have hlen : (roster.filter (fun s => ! isEnvName s)).length ≤ received.length := by
      rcases not_and_or.mp hguard with hg | hg
      · have := not_lt.mp hg
        omega
      · have hro : roster.length ≤ 1 := not_lt.mp hg
        omega
    have hperm : received.Perm (roster.filter (fun s => ! isEnvName s)) :=
      hsp.perm_of_length_le hlen
    exact hperm.mem_iff.mpr (List.mem_filter.mpr ⟨he, by simp [henv]⟩)

/-- The roster of the C8 counterexample: the environment, an element rostered
under its network-prefixed name, and a plain element `B`. -/
def rosterC8 : List String := ["ENVIRONMENT", "net/A", "B"]

/-- Two tic requests naming element `net/A` under both its plain and its
prefixed form. -/
def msgsC8 : List IncomingMsg := [{ src := "A", is_tic_req := true },
                                  { src := "net/A", is_tic_req := true }]

/-- C8 counterexample: the loop returns after the two aliased requests — the
count reaches `|roster| − 1 = 2` — although the rostered non-environment
element `B` never sent an accepted `TicRequest`, against the claim's "one
TicRequest from every rostered non-environment element". -/
theorem wait_for_tic_requests_counterexample :
    wait_for_tic_requests rosterC8 "net" msgsC8 [] = some ["A", "net/A"]
      ∧ "B" ∈ rosterC8 ∧ isEnvName "B" = false ∧ "B" ∉ (["A", "net/A"] : List String) := by
  decide

/-- C8 witness: with roster `{ENVIRONMENT, A, B}` and un-aliased tic requests
from `A` and `B`, the loop returns having heard from both non-environment
elements. -/
theorem wait_for_tic_requests_spec_witness :
    "A" ∈ (wait_for_tic_requests ["ENVIRONMENT", "A", "B"] "net"
        [{ src := "A", is_tic_req := true }, { src := "B", is_tic_req := true }] []).getD []
      ∧ "B" ∈ (wait_for_tic_requests ["ENVIRONMENT", "A", "B"] "net"
        [{ src := "A", is_tic_req := true }, { src := "B", is_tic_req := true }] []).getD [] := by
  have hrun : wait_for_tic_requests ["ENVIRONMENT", "A", "B"] "net"
      [{ src := "A", is_tic_req := true }, { src := "B", is_tic_req := true }] []
      = some ["A", "B"] := by decide
  have h := wait_for_tic_requests_spec.2 ["ENVIRONMENT", "A", "B"] "net"
    [{ src := "A", is_tic_req := true }, { src := "B", is_tic_req := true }] ["A", "B"]
    (by decide) (by decide) hrun (by decide)
  rw [hrun]
  exact ⟨h "A" (by decide) (by decide), h "B" (by decide) (by decide)⟩

/-! ## C1 — the bundle/path multiset invariant -/

/-- The path component of the `compare_results` release loop is the
one-by-one erasure of the dropped pairs. -/
theorem releaseTailCompare_path (selfName : String) (t : ℚ) :
    ∀ (l : List Pair) (results : Results) (path : List Pair)
      (rb ch : List SubtaskBid),
      (releaseTailCompare selfName t l (results, path, rb, ch)).2.1
        = l.foldl (fun p q => p.erase q) path := by
  intro l
  induction l with
  | nil => intro results path rb ch; rfl
  | cons a rest ih =>
      intro results path rb ch
      obtain ⟨task, subtask_index⟩ := a
      simp only [releaseTailCompare]
      split
      · rw [ih, List.foldl_cons]
      · rw [ih, List.foldl_cons]

/-- The path component of the resetting release loops is the one-by-one
erasure of the dropped pairs. -/
theorem releaseTailReset_path (t : ℚ) (record : Bool) :
    ∀ (l : List Pair) (results : Results) (path : List Pair)
      (ch : List SubtaskBid),
      (releaseTailReset t record l (results, path, ch)).2.1
        = l.foldl (fun p q => p.erase q) path := by
  intro l
  induction l with
  | nil => intro results path ch; rfl
  | cons a rest ih =>
      intro results path ch
      obtain ⟨task, subtask_index⟩ := a
      simp only [releaseTailReset]
      rw [ih, List.foldl_cons]

/-- The release tail of one `compare_results` iteration preserves the
bundle/path permutation. -/
theorem compareRelease_perm (selfName : String) (t : ℚ) (s : CompareState)
    (results1 : Results) (rb1 ch1 : List SubtaskBid) (my_bid1 : SubtaskBid)
    (h : s.bundle.Perm s.path) :
    (compareRelease selfName t s results1 rb1 ch1 my_bid1).bundle.Perm
      (compareRelease selfName t s results1 rb1 ch1 my_bid1).path := by
  unfold compareRelease
  split
  · dsimp only
    rw [releaseTailCompare_path]
    apply perm_foldl_erase
    rw [List.take_append_drop]
    exact h
  · exact h

set_option maxHeartbeats 1000000 in
/-- One `compare_results` iteration preserves the bundle/path permutation. -/
theorem compareStep_perm (selfName : String) (t : ℚ) (s : CompareState)
    (m : SubtaskBid) (h : s.bundle.Perm s.path) :
    (compareStep selfName t s m).bundle.Perm (compareStep selfName t s m).path := by
  simp only [compareStep]
  exact compareRelease_perm _ _ _ _ _ _ _ h

/-- `compare_results` preserves the bundle/path permutation. -/
theorem compare_results_perm (selfName : String) (results : Results)
    (bundle path : List Pair) (t : ℚ) (inbox : List SubtaskBid)
    (h : bundle.Perm path) :
    (compare_results selfName results bundle path t inbox).bundle.Perm
      (compare_results selfName results bundle path t inbox).path := by
  unfold compare_results
  exact foldl_invariant _ (fun s => s.bundle.Perm s.path) inbox
    { results := results, bundle := bundle, path := path,
      changes := [], rebroadcasts := [] }
    h (fun s m _ hs => compareStep_perm selfName t s m hs)

/-- `check_task_end_time` preserves the bundle/path permutation. -/
theorem check_task_end_time_perm (results : Results) (bundle path : List Pair)
    (t : ℚ) (h : bundle.Perm path) :
    (check_task_end_time results bundle path t).2.1.Perm
      (check_task_end_time results bundle path t).2.2.1 := by
  unfold check_task_end_time
  split
  · exact h
  · dsimp only
    apply perm_foldl_erase
    rw [List.take_append_drop]
    exact h

/-- `check_task_completion` preserves the bundle/path permutation. -/
theorem check_task_completion_perm (results : Results) (bundle path : List Pair)
    (t : ℚ) (h : bundle.Perm path) :
    (check_task_completion results bundle path t).2.1.Perm
      (check_task_completion results bundle path t).2.2.1 := by
  unfold check_task_completion
  split
  · exact h
  · dsimp only
    rw [releaseTailReset_path]
    apply perm_foldl_erase
    rw [List.take_append_drop]
    exact h

/-- `check_results_constraints` preserves the bundle/path permutation (strong
induction on the bundle length, which shrinks at every removal round). -/
theorem check_results_constraints_perm :
    ∀ (n : Nat) (results : Results) (bundle path : List Pair) (t : ℚ)
      (changes : List SubtaskBid), bundle.length ≤ n → bundle.Perm path →
      (check_results_constraints results bundle path t changes).2.1.Perm
        (check_results_constraints results bundle path t changes).2.2.1 := by
  intro n
  induction n with
  | zero =>
      intro results bundle path t changes hlen h
      have hnil : bundle = [] := List.length_eq_zero.mp (Nat.le_zero.mp hlen)
      subst hnil
      rw [check_results_constraints]
      exact h
  | succ n ih =>
      intro results bundle path t changes hlen h
      rw [check_results_constraints]
      split
      · exact h
      · rename_i pr hscan
        dsimp only
        rw [releaseTailReset_path]
        have hmem : pr ∈ bundle := scanForViolation_mem t bundle results pr hscan
        have hidx : bundle.indexOf pr < bundle.length := indexOf_lt_length_of_mem hmem
        apply ih
        · have : (bundle.take (bundle.indexOf pr)).length ≤ bundle.indexOf pr :=
            by simpa using Nat.min_le_left _ _
          omega
        · apply perm_foldl_erase
          rw [List.take_append_drop]
          exact h

/-- A successful `calc_path_bid` returns an insertion of the candidate into
the original path (hence a permutation of consing it on). -/
theorem calc_path_bid_insert (utilityBase : MeasurementTask → ℚ → ℚ)
    (state : SimulationAgentState) (original_results : Results)
    (original_path : List Pair) (task : MeasurementTask) (subtask_index : Nat) :
    ∀ pp bids,
      (calc_path_bid utilityBase state original_results original_path
          task subtask_index).1 = some (pp, bids) →
        pp.Perm ((task, subtask_index) :: original_path) := by
  unfold calc_path_bid
  split
  · intro pp bids hc; exact Option.noConfusion hc
  · have := foldl_invariant
      (fun (acc : Option (List Pair × BidDict) × ℚ) i =>
        let path := original_path.insertIdx i (task, subtask_index)
        let bids := path.foldl (fun bids p =>
            let t_img := calc_imaging_time state original_results path bids p.1 p.2
            let utility := calc_utility utilityBase p.1 p.2 t_img
            let bid := ((findBids original_results p.1.id).getD p.2 default).set_bid
              utility t_img state.t
            dictSet bids p.1.id p.2 bid) []
        let path_utility := sum_path_utility path bids
        if path_utility > acc.2 then (some (path, bids), path_utility) else acc)
      (fun acc => ∀ pp bids, acc.1 = some (pp, bids) →
        pp.Perm ((task, subtask_index) :: original_path))
      (List.range (original_path.length + 1)) (none, 0)
      (fun pp bids hc => Option.noConfusion hc)
      (fun acc i hi hacc => by
        intro pp bids hstep
        dsimp only at hstep
        split at hstep
        · injection hstep with hstep
          injection hstep with hpp hbids
          rw [← hpp]
          exact insertIdx_perm i original_path (task, subtask_index)
            (Nat.lt_succ_iff.mp (List.mem_range.mp hi))
        · exact hacc pp bids hstep)
    exact this

/-- A scan step preserves "any selected path is a permutation of consing the
selected candidate onto the loop's current path". -/
theorem planScanStep_insert (utilityBase : MeasurementTask → ℚ → ℚ)
    (state : SimulationAgentState) (results : Results) (path : List Pair)
    (s : PlanScan) (cand : Pair)
    (hs : ∀ c, s.max_task = some c → s.max_path.Perm (c :: path)) :
    ∀ c, (planScanStep utilityBase state results path s cand).max_task = some c →
      (planScanStep utilityBase state results path s cand).max_path.Perm (c :: path) := by
  intro c
  simp only [planScanStep]
  rcases hcp : calc_path_bid utilityBase state results path cand.1 cand.2 with ⟨p?, u⟩
  cases p? with
  | none => exact hs c
  | some pb =>
      obtain ⟨pp, pbids⟩ := pb
      dsimp only
      split
      · split
        · exact hs c
        · intro hc
          injection hc with hc
          subst hc
          have hins := calc_path_bid_insert utilityBase state results path
            cand.1 cand.2 pp pbids
          rw [hcp] at hins
          exact hins rfl
      · exact hs c

/-- The full candidate scan preserves the selected-path property. -/
theorem planScan_foldl_insert (utilityBase : MeasurementTask → ℚ → ℚ)
    (state : SimulationAgentState) (results : Results) (path : List Pair) :
    ∀ (l : List Pair) (s : PlanScan),
      (∀ c, s.max_task = some c → s.max_path.Perm (c :: path)) →
      ∀ c, (l.foldl (planScanStep utilityBase state results path) s).max_task = some c →
        (l.foldl (planScanStep utilityBase state results path) s).max_path.Perm
          (c :: path) := by
  intro l
  induction l with
  | nil => intro s hs; exact hs
  | cons a rest ih =>
      intro s hs
      rw [List.foldl_cons]
      exact ih _ (planScanStep_insert utilityBase state results path s a hs)

/-- The `planning_phase` while-loop preserves the bundle/path permutation. -/
theorem planningLoop_perm (utilityBase : MeasurementTask → ℚ → ℚ)
    (state : SimulationAgentState) (l_bundle : Nat) :
    ∀ (n : Nat) (available : List Pair) (results : Results)
      (bundle path changes_to_bundle : List Pair) (scanCarry : PlanScan),
      available.length ≤ n → bundle.Perm path →
      (planningLoop utilityBase state l_bundle available results bundle path
          changes_to_bundle scanCarry).2.1.Perm
        (planningLoop utilityBase state l_bundle available results bundle path
          changes_to_bundle scanCarry).2.2.1 := by
  intro n
  induction n with
  | zero =>
      intro available results bundle path ctb scanCarry hlen h
      have hnil : available = [] := List.length_eq_zero.mp (Nat.le_zero.mp hlen)
      subst hnil
      rw [planningLoop]
      simp only [ne_eq, not_true_eq_false, and_false, if_false]
      exact h
  | succ n ih =>
      intro available results bundle path ctb scanCarry hlen h
      rw [planningLoop]
      split
      · rename_i hguard
        dsimp only
        split
        · rename_i c hscan
          apply ih
          · have hmem : c ∈ available := by
              rcases planScan_foldl_max_task utilityBase state results path available
                  { scanCarry with max_task := none } with h' | ⟨c', hc', h'⟩
              · rw [hscan] at h'; exact Option.noConfusion h'
              · rw [hscan] at h'
                injection h' with h'
                exact h' ▸ hc'
            have := List.length_erase_of_mem hmem
            have := List.length_pos_of_mem hmem
            omega
          · have hp : (available.foldl (planScanStep utilityBase state results path)
                { scanCarry with max_task := none }).max_path.Perm (c :: path) :=
              planScan_foldl_insert utilityBase state results path available
                { scanCarry with max_task := none }
                (fun c' hc' => Option.noConfusion hc') c hscan
            exact (List.perm_append_singleton c bundle).trans ((h.cons c).trans hp.symm)
        · exact h
      · exact h

/-- C1: each consensus sub-stage (`compare_results`, `check_task_end_time`,
`check_task_completion`, `check_results_constraints`) and `planning_phase`
preserves the multiset equality `set(bundle) = set(path)`: every pair dropped
from the bundle is erased from the path, and every pair appended to the
bundle is inserted into the path. -/
theorem bundle_path_multiset_invariant :
    (∀ (selfName : String) (results : Results) (bundle path : List Pair)
        (t : ℚ) (inbox : List SubtaskBid),
      (bundle : Multiset Pair) = (path : Multiset Pair) →
      ((compare_results selfName results bundle path t inbox).bundle : Multiset Pair)
        = ((compare_results selfName results bundle path t inbox).path : Multiset Pair))
    ∧ (∀ (results : Results) (bundle path : List Pair) (t : ℚ),
      (bundle : Multiset Pair) = (path : Multiset Pair) →
      ((check_task_end_time results bundle path t).2.1 : Multiset Pair)
        = ((check_task_end_time results bundle path t).2.2.1 : Multiset Pair))
    ∧ (∀ (results : Results) (bundle path : List Pair) (t : ℚ),
      (bundle : Multiset Pair) = (path : Multiset Pair) →
      ((check_task_completion results bundle path t).2.1 : Multiset Pair)
        = ((check_task_completion results bundle path t).2.2.1 : Multiset Pair))
    ∧ (∀ (results : Results) (bundle path : List Pair) (t : ℚ)
        (changes : List SubtaskBid),
      (bundle : Multiset Pair) = (path : Multiset Pair) →
      ((check_results_constraints results bundle path t changes).2.1 : Multiset Pair)
        = ((check_results_constraints results bundle path t changes).2.2.1 : Multiset Pair))
    ∧ (∀ (utilityBase : MeasurementTask → ℚ → ℚ) (state : SimulationAgentState)
        (l_bundle : Nat) (results : Results) (bundle path : List Pair),
      (bundle : Multiset Pair) = (path : Multiset Pair) →
      ((planning_phase utilityBase state l_bundle results bundle path).2.1 : Multiset Pair)
        = ((planning_phase utilityBase state l_bundle results bundle path).2.2.1
            : Multiset Pair)) := by
  refine ⟨?_, ?_, ?_, ?_, ?_⟩
  · intro selfName results bundle path t inbox h
    exact Multiset.coe_eq_coe.mpr
      (compare_results_perm selfName results bundle path t inbox
        (Multiset.coe_eq_coe.mp h))
  · intro results bundle path t h
    exact Multiset.coe_eq_coe.mpr
      (check_task_end_time_perm results bundle path t (Multiset.coe_eq_coe.mp h))
  · intro results bundle path t h
    exact Multiset.coe_eq_coe.mpr
      (check_task_completion_perm results bundle path t (Multiset.coe_eq_coe.mp h))
  · intro results bundle path t changes h
    exact Multiset.coe_eq_coe.mpr
      (check_results_constraints_perm bundle.length results bundle path t changes
        (Nat.le_refl _) (Multiset.coe_eq_coe.mp h))
  · intro utilityBase state l_bundle results bundle path h
    unfold planning_phase
    exact Multiset.coe_eq_coe.mpr
      (planningLoop_perm utilityBase state l_bundle
        (get_available_tasks state bundle results).length _ results bundle path _ _
        (Nat.le_refl _) (Multiset.coe_eq_coe.mp h))

/-- C1 witness: the invariant instantiated on a concrete singleton bundle and
path, through all five operations. -/
theorem bundle_path_multiset_invariant_witness :
    (((compare_results "AGENT_A" [] [(task1, 0)] [(task1, 0)] 0 [bidB1]).bundle
        : Multiset Pair)
      = ((compare_results "AGENT_A" [] [(task1, 0)] [(task1, 0)] 0 [bidB1]).path
          : Multiset Pair))
    ∧ (((check_task_end_time [] [(taskExp, 0)] [(taskExp, 0)] 2).2.1 : Multiset Pair)
        = ((check_task_end_time [] [(taskExp, 0)] [(taskExp, 0)] 2).2.2.1 : Multiset Pair))
    ∧ (((check_task_completion [] [(task1, 0)] [(task1, 0)] 1).2.1 : Multiset Pair)
        = ((check_task_completion [] [(task1, 0)] [(task1, 0)] 1).2.2.1 : Multiset Pair))
    ∧ (((check_results_constraints [] [(task1, 0)] [(task1, 0)] 1 []).2.1 : Multiset Pair)
        = ((check_results_constraints [] [(task1, 0)] [(task1, 0)] 1 []).2.2.1
            : Multiset Pair))
    ∧ (((planning_phase (fun _ _ => 1)
          { pos := [0, 0], t := 0, instruments := ["mwr"],
            calc_arrival_time := fun _ _ t => t } 3 [] [(task1, 0)] [(task1, 0)]).2.1
          : Multiset Pair)
        = ((planning_phase (fun _ _ => 1)
            { pos := [0, 0], t := 0, instruments := ["mwr"],
              calc_arrival_time := fun _ _ t => t } 3 [] [(task1, 0)] [(task1, 0)]).2.2.1
            : Multiset Pair)) :=
  ⟨bundle_path_multiset_invariant.1 "AGENT_A" [] [(task1, 0)] [(task1, 0)] 0 [bidB1] rfl,
   bundle_path_multiset_invariant.2.1 [] [(taskExp, 0)] [(taskExp, 0)] 2 rfl,
   bundle_path_multiset_invariant.2.2.1 [] [(task1, 0)] [(task1, 0)] 1 rfl,
   bundle_path_multiset_invariant.2.2.2.1 [] [(task1, 0)] [(task1, 0)] 1 [] rfl,
   bundle_path_multiset_invariant.2.2.2.2 (fun _ _ => 1)
     { pos := [0, 0], t := 0, instruments := ["mwr"],
       calc_arrival_time := fun _ _ t => t } 3 [] [(task1, 0)] [(task1, 0)] rfl⟩

end DMAS
